import Mathlib

/-!
# Verification of the tango synchronization engine (`src/lib.rs`)

A shallow embedding of the timestamp-based synchronization engine:
the divergence check (`Context::check_transform`), the planner walk
(`Context::gather_inputs`), content generation with mtime backdating
(`Context::generate_content`), the concurrent-update verification
(`Context::check_input_timestamps`), stamp management
(`Context::adjust_stamp_timestamp` / `create_stamp`), the path
counterpart computation (`RsPath::to_md` / `MdPath::to_rs`), and the
two text transforms (`rs2md` / `md2rs`).

Modelling conventions:

* The `timestamp` module is not among the sources; following the spec
  (sections 3 and 4.1), a `Timestamp` is a whole nanosecond count and
  the low-precision view truncates to milliseconds (`to_ms`).
* Paths are lists of components, and each component (file name) is
  represented by its list of dot-separated segments, so that the Rust
  `Path::extension` / `PathBuf::set_extension` semantics become list
  operations.  `src/foo.rs` is `[["src"], ["foo", "rs"]]`.
* The filesystem is a map from paths to optional mtimes; file contents
  are irrelevant to every timestamp-level claim.  `set_file_times` may
  round the stored value, which is modelled by an arbitrary `round`
  function (the spec requires only millisecond agreement).
* Rust panics (`panic!`, `assert!`, `expect`) are modelled as a
  distinguished `Error.Panic` value; `try!`-propagated I/O failures on
  absent files are `Error.IoError`.
* Text lines are lists of characters, so that prefix and suffix tests
  are plain list operations.
-/

deriving instance DecidableEq for Except

namespace Tango

/-! ## Timestamps (modelled from the spec: module `timestamp` is not in `src/`)

Spec section 3: a timestamp is a whole-second-and-nanosecond moment with a
high-precision (nanosecond) total order and a low-precision view truncated
to milliseconds.  We represent it as the total nanosecond count. -/

/-- Filesystem modification time, in nanoseconds (`type mtime = Timestamp`). -/
abbrev mtime := Nat

/-- Modelled from the spec: `Timestamp::to_ms` truncates to milliseconds. -/
def to_ms (t : mtime) : Nat := t / 1000000

/-- `enum MtimeResult { NonExistant, Modified(mtime) }`. -/
inductive MtimeResult where
  | NonExistant : MtimeResult
  | Modified : mtime → MtimeResult
deriving DecidableEq

/-! ## Paths

A path component (file name) is its list of dot-separated segments, the
image of the name under splitting on `.`; a path is a list of components.
`Path::extension` returns the segment after the final dot, except that a
name with no dot, or a name whose only dot is leading (a hidden file like
`.rs`), has no extension — mirroring the Rust std semantics used by
`lib.rs`. -/

/-- A file name, as its nonempty list of dot-separated segments. -/
abbrev FileName := List String

/-- A path, as its list of components. -/
abbrev RawPath := List FileName

/-- `pub const SRC_DIR: &str = "src"` (as a path component). -/
def srcDir : FileName := ["src"]

/-- `pub const LIT_DIR: &str = "src"` (the two roots coincide, see `lib.rs`). -/
def litDir : FileName := ["src"]

/-- `pub const STAMP: &str = "tango.stamp"` (as a one-component path). -/
def stampPath : RawPath := [["tango", "stamp"]]

/-- Rust `Path::extension` on a file name: the final dot-separated segment,
unless there is no dot (a single segment) or the name is a leading-dot
name with a single dot (exactly `["", _]`, e.g. the hidden file `.rs`). -/
def extensionOf (c : FileName) : Option String :=
  if c.length ≤ 1 then none
  else if c.head? = some "" ∧ c.length = 2 then none
  else c.getLast?

/-- Rust `PathBuf::set_extension` on one file name: replace the final
segment when an extension is present, append a segment otherwise. -/
def setExtF (c : FileName) (ext : String) : FileName :=
  match extensionOf c with
  | none => c ++ [ext]
  | some _ => c.dropLast ++ [ext]

/-- `PathBuf::set_extension` applied to a whole path: rewrite the last
component (the file name); a rootless empty path is left unchanged. -/
def set_extension : RawPath → String → RawPath
  | [], _ => []
  | [c], ext => [setExtF c ext]
  | c :: c2 :: cs, ext => c :: set_extension (c2 :: cs) ext

/-- Last component of a path (the Rust `Path::file_name`), defaulting to
the empty component for the empty path. -/
def lastC (p : RawPath) : FileName := (p.getLast?).getD []

/-- `RsPath::to_md`: push `LIT_DIR`, copy the components after the root,
set the extension to `md`. -/
def to_md (p : RawPath) : RawPath := set_extension (litDir :: p.tail) "md"

/-- `MdPath::to_rs`: push `SRC_DIR`, copy the components after the root,
set the extension to `rs`. -/
def to_rs (p : RawPath) : RawPath := set_extension (srcDir :: p.tail) "rs"

/-- `check_path`-validity: the extension matches and the path is rooted at
the designated root directory (`p.starts_with(root)` on the first
component).  `check_path` panics exactly when this fails. -/
def check_path_ok (p : RawPath) (ext : String) (root : FileName) : Prop :=
  extensionOf (lastC p) = some ext ∧ p.head? = some root

instance (p : RawPath) (ext : String) (root : FileName) :
    Decidable (check_path_ok p ext root) := by
  unfold check_path_ok; infer_instance

/-! ## Transforms and the divergence check -/

/-- `struct Transform<X, Y>`: source/target paths with the mtimes captured
at planning time (`X` and `Y` are both paths here; the Rust phantom typing
of direction is erased). -/
structure Transform where
  source_time : mtime
  target_time : MtimeResult
  original : RawPath
  generate : RawPath
deriving DecidableEq

/-- `check::ErrorKind`, with the path payloads (the Rust code stores the
rendered path strings; we keep the paths). -/
inductive CheckErrorKind where
  | TargetYoungerThanOriginal : RawPath → RawPath → CheckErrorKind
  | NoTangoStampExists : RawPath → RawPath → CheckErrorKind
  | TangoStampOlderThanTarget : RawPath → CheckErrorKind
deriving DecidableEq

/-- `enum TransformNeed { Needed, Unneeded }`. -/
inductive TransformNeed where
  | Needed : TransformNeed
  | Unneeded : TransformNeed
deriving DecidableEq

/-- Outcome of the divergence check: the need classification together with
the two warnings the code can print, in order: the source/target
nanosecond-precision warning, and the stamp/target nanosecond-precision
warning.  (The Rust code prints them; we record them.) -/
abbrev CheckResult := Except CheckErrorKind (TransformNeed × Bool × Bool)

/-- `Context::check_transform` (`lib.rs` lines 506-595), as a pure function
of the planning-time data.  The stamp argument is `Context::orig_stamp`'s
timestamp.  The defensive `assert!(!t.generate.exists())` in the
`NonExistant` arm re-reads the filesystem and cannot fire on a coherent
planning snapshot; it is elided to keep the check pure. -/
def check_transform (orig_stamp : Option mtime) (t : Transform) : CheckResult :=
  match t.target_time with
  | MtimeResult.NonExistant => Except.ok (TransformNeed.Needed, false, false)
  | MtimeResult.Modified t_mod =>
    let s_mod := t.source_time
    let same_age_at_low_precision := to_ms s_mod = to_ms t_mod
    if t_mod > s_mod then
      -- target is newer than source: do not overwrite the target
      Except.ok (TransformNeed.Unneeded, false, false)
    else if same_age_at_low_precision then
      -- warning: timestamps differ only at nanosecond level; no rebuild
      Except.ok (TransformNeed.Unneeded, true, false)
    else
      match orig_stamp with
      | none => Except.error (CheckErrorKind.NoTangoStampExists t.generate t.original)
      | some stamp_time =>
        let older_at_high_precision := stamp_time < t_mod
        let older_at_low_precision := to_ms stamp_time < to_ms t_mod
        if older_at_low_precision then
          Except.error (CheckErrorKind.TangoStampOlderThanTarget t.generate)
        else
          -- warning (printed iff older at high precision only), then Needed
          Except.ok (TransformNeed.Needed, false,
            decide older_at_high_precision && !(decide older_at_low_precision))

/-- The spec's divergence decision table exactly as the claim states it
(first matching row applies; the final row is an unguarded `otherwise`):
target absent: needed; `t_mod > s_mod` strictly: unneeded; equal at ms but
different at ns: unneeded + warning; `t_mod < s_mod` at ms with no stamp:
`NoStampExists`; with a stamp older than the target at ms:
`StampOlderThanTarget`; with a stamp below the target only at ns: needed +
warning; otherwise: needed. -/
def spec_decision_table (orig_stamp : Option mtime) (t : Transform) : CheckResult :=
  match t.target_time with
  | MtimeResult.NonExistant => Except.ok (TransformNeed.Needed, false, false)
  | MtimeResult.Modified t_mod =>
    let s_mod := t.source_time
    if t_mod > s_mod then
      Except.ok (TransformNeed.Unneeded, false, false)
    else if to_ms t_mod = to_ms s_mod ∧ t_mod ≠ s_mod then
      Except.ok (TransformNeed.Unneeded, true, false)
    else if to_ms t_mod < to_ms s_mod then
      match orig_stamp with
      | none => Except.error (CheckErrorKind.NoTangoStampExists t.generate t.original)
      | some stamp_time =>
        if to_ms stamp_time < to_ms t_mod then
          Except.error (CheckErrorKind.TangoStampOlderThanTarget t.generate)
        else if stamp_time < t_mod ∧ to_ms stamp_time = to_ms t_mod then
          Except.ok (TransformNeed.Needed, false, true)
        else
          Except.ok (TransformNeed.Needed, false, false)
    else
      Except.ok (TransformNeed.Needed, false, false)

/-- The decision table amended as the code forces: the third row fires
whenever source and target agree at millisecond precision and the target
is not strictly newer at nanosecond precision — including exactly equal
timestamps (the only change from `spec_decision_table`). -/
def spec_decision_table_amended (orig_stamp : Option mtime) (t : Transform) : CheckResult :=
  match t.target_time with
  | MtimeResult.NonExistant => Except.ok (TransformNeed.Needed, false, false)
  | MtimeResult.Modified t_mod =>
    let s_mod := t.source_time
    if t_mod > s_mod then
      Except.ok (TransformNeed.Unneeded, false, false)
    else if to_ms t_mod = to_ms s_mod then
      Except.ok (TransformNeed.Unneeded, true, false)
    else if to_ms t_mod < to_ms s_mod then
      match orig_stamp with
      | none => Except.error (CheckErrorKind.NoTangoStampExists t.generate t.original)
      | some stamp_time =>
        if to_ms stamp_time < to_ms t_mod then
          Except.error (CheckErrorKind.TangoStampOlderThanTarget t.generate)
        else if stamp_time < t_mod ∧ to_ms stamp_time = to_ms t_mod then
          Except.ok (TransformNeed.Needed, false, true)
        else
          Except.ok (TransformNeed.Needed, false, false)
    else
      Except.ok (TransformNeed.Needed, false, false)

/-! ## Filesystem snapshots, errors, and the planner walk -/

/-- A filesystem snapshot: the mtime of each existing path. -/
abbrev FS := RawPath → Option mtime

/-- `Mtime::modified` through a snapshot (`read_mtime`): absent paths give
`NonExistant`, present paths their timestamp. -/
def readMtime (fs : FS) (p : RawPath) : MtimeResult :=
  match fs p with
  | some t => MtimeResult.Modified t
  | none => MtimeResult.NonExistant

/-- Point update of a snapshot (the effect of a write / `set_file_times`). -/
def updateFS (fs : FS) (p : RawPath) (t : mtime) : FS :=
  fun q => if q = p then some t else fs q

/-- `enum Error` of `lib.rs`, plus a `Panic` constructor standing for Rust
panics (`panic!` / failed `assert!`). -/
inductive Error where
  | IoError : RawPath → Error
  | CheckInputError : CheckErrorKind → Error
  | MtimeError : RawPath → Error
  | ConcurrentUpdate : RawPath → mtime → mtime → Error
  | Panic : String → Error
deriving DecidableEq

/-- Fallible engine computations (`Result<X>`). -/
abbrev ERes (α : Type) := Except Error α

/-- One entry produced by the `WalkDir` traversal: its path and whether its
file name is valid unicode (`OsStr::to_str` succeeds). -/
structure WalkEntry where
  path : RawPath
  nameValid : Bool
deriving DecidableEq

/-- A file name begins with a period iff its first dot-separated segment is
empty. -/
def startsWithDot (c : FileName) : Bool := c.head? = some ""

/-- `keep_file_name` (`lib.rs` lines 634-643): reject names that are not
valid unicode or begin with a period. -/
def keep_file_name (e : WalkEntry) : Bool :=
  e.nameValid && !(startsWithDot (lastC e.path))

/-- `struct Context`: the stamp opened at startup, the two transform
queues, and the newest source time seen (`emit_rerun_if` only controls
printing and is omitted). -/
structure Ctx where
  orig_stamp : Option mtime
  src_inputs : List Transform
  lit_inputs : List Transform
  newest_stamp : Option mtime
deriving DecidableEq

/-- The inner update of `Context::update_newest_time`. -/
def newestOf (acc : Option mtime) (t : mtime) : Option mtime :=
  match acc with
  | some s => if t > s then some t else some s
  | none => some t

/-- `Context::update_newest_time`. -/
def update_newest_time (c : Ctx) (t : mtime) : Ctx :=
  { c with newest_stamp := newestOf c.newest_stamp t }

/-- `Context::push_src`. -/
def push_src (c : Ctx) (t : Transform) : Ctx :=
  let c1 := update_newest_time c t.source_time
  { c1 with src_inputs := c1.src_inputs ++ [t] }

/-- `Context::push_lit`. -/
def push_lit (c : Ctx) (t : Transform) : Ctx :=
  let c1 := update_newest_time c t.source_time
  { c1 with lit_inputs := c1.lit_inputs ++ [t] }

/-- `RsPath::new` / `MdPath::new`: `check_path` panics unless the extension
and the root both match. -/
def path_new (p : RawPath) (ext : String) (root : FileName) : ERes RawPath :=
  if extensionOf (lastC p) = some ext then
    if p.head? = some root then Except.ok p
    else Except.error (Error.Panic "path must be rooted at the designated root")
  else Except.error (Error.Panic "path requires the designated extension")

/-- `Transforms::transform` for a source path: read the source mtime
(panicking if the source has vanished, `lib.rs` line 368), compute the
target path, capture the target's `MtimeResult`. -/
def mk_transform (fs : FS) (p : RawPath) (target : RawPath) : ERes Transform :=
  match fs p with
  | none => Except.error (Error.Panic "impossible for source to be NonExistant")
  | some s => Except.ok ⟨s, readMtime fs target, p, target⟩

/-- One iteration of the `.rs` gathering loop of `Context::gather_inputs`
(`lib.rs` lines 671-700): skip non-kept or non-`.rs` names, validate the
path, build the transform, and dispatch on the divergence check.
(`warn_if_nonexistant` only prints; the vanished-source case then panics
inside `transform()`, which `mk_transform` models.) -/
def gather_one_rs (fs : FS) (c : Ctx) (e : WalkEntry) : ERes Ctx :=
  if !(keep_file_name e) then Except.ok c
  else if extensionOf (lastC e.path) ≠ some "rs" then Except.ok c
  else
    match path_new e.path "rs" srcDir with
    | Except.error err => Except.error err
    | Except.ok p =>
      match mk_transform fs p (to_md p) with
      | Except.error err => Except.error err
      | Except.ok t =>
        match check_transform c.orig_stamp t with
        | Except.ok (TransformNeed.Needed, _, _) => Except.ok (push_src c t)
        | Except.ok (TransformNeed.Unneeded, _, _) => Except.ok c
        | Except.error e => Except.error (Error.CheckInputError e)

/-- One iteration of the `.md` gathering loop (`lib.rs` lines 707-741). -/
def gather_one_md (fs : FS) (c : Ctx) (e : WalkEntry) : ERes Ctx :=
  if !(keep_file_name e) then Except.ok c
  else if extensionOf (lastC e.path) ≠ some "md" then Except.ok c
  else
    match path_new e.path "md" litDir with
    | Except.error err => Except.error err
    | Except.ok p =>
      match mk_transform fs p (to_rs p) with
      | Except.error err => Except.error err
      | Except.ok t =>
        match check_transform c.orig_stamp t with
        | Except.ok (TransformNeed.Needed, _, _) => Except.ok (push_lit c t)
        | Except.ok (TransformNeed.Unneeded, _, _) => Except.ok c
        | Except.error e => Except.error (Error.CheckInputError e)

/-- The `.rs` walk loop over its entries. -/
def gather_rs (fs : FS) : Ctx → List WalkEntry → ERes Ctx
  | c, [] => Except.ok c
  | c, e :: rest =>
    match gather_one_rs fs c e with
    | Except.ok c1 => gather_rs fs c1 rest
    | Except.error err => Except.error err

/-- The `.md` walk loop over its entries. -/
def gather_md (fs : FS) : Ctx → List WalkEntry → ERes Ctx
  | c, [] => Except.ok c
  | c, e :: rest =>
    match gather_one_md fs c e with
    | Except.ok c1 => gather_md fs c1 rest
    | Except.error err => Except.error err

/-- `Context::gather_inputs`: the `.rs` walk, then the `.md` walk. -/
def gather_inputs (fs : FS) (c : Ctx) (rsEntries mdEntries : List WalkEntry) : ERes Ctx :=
  match gather_rs fs c rsEntries with
  | Except.ok c1 => gather_md fs c1 mdEntries
  | Except.error err => Except.error err

/-! ## Generation, verification, and the stamp

`set_file_times` is the native set-times primitive; on some platforms it
rounds the stored value (spec, Design Notes), which the `round` parameter
models.  Every theorem that needs agreement assumes only that `round`
preserves the millisecond view. -/

/-- One `src_inputs` (rs to md) generation step (`lib.rs` lines 752-761):
open the source, create the target, convert, and backdate the target's
mtime to the source's planning-time mtime.  No re-read check is performed
in this loop. -/
def generate_src_one (round : mtime → mtime) (fs : FS) (t : Transform) : ERes FS :=
  match fs t.original with
  | none => Except.error (Error.IoError t.original)
  | some _ =>
    if t.source_time > 0 then
      Except.ok (updateFS fs t.generate (round t.source_time))
    else Except.error (Error.Panic "assertion failed: source_time > 0")

/-- One `lit_inputs` (md to rs) generation step (`lib.rs` lines 762-789):
generate and backdate as above, then re-open both files and assert that
their mtimes agree at millisecond precision.  The returned pair records
that the defensive check ran on this source/target pair. -/
def generate_lit_one (round : mtime → mtime) (fs : FS) (t : Transform) :
    ERes (FS × (RawPath × RawPath)) :=
  match fs t.original with
  | none => Except.error (Error.IoError t.original)
  | some _ =>
    if t.source_time > 0 then
      let fs1 := updateFS fs t.generate (round t.source_time)
      match fs1 t.original, fs1 t.generate with
      | some src_time, some tgt_time =>
        if to_ms src_time = to_ms tgt_time then
          Except.ok (fs1, (t.original, t.generate))
        else Except.error (Error.Panic "assertion failed: src ms equals tgt ms")
      | none, _ => Except.error (Error.IoError t.original)
      | _, none => Except.error (Error.IoError t.generate)
    else Except.error (Error.Panic "assertion failed: source_time > 0")

/-- The `src_inputs` generation loop. -/
def generate_srcs (round : mtime → mtime) : FS → List Transform → ERes FS
  | fs, [] => Except.ok fs
  | fs, t :: rest =>
    match generate_src_one round fs t with
    | Except.ok fs1 => generate_srcs round fs1 rest
    | Except.error err => Except.error err

/-- The `lit_inputs` generation loop, accumulating the checked pairs. -/
def generate_lits (round : mtime → mtime) : FS → List Transform → ERes (FS × List (RawPath × RawPath))
  | fs, [] => Except.ok (fs, [])
  | fs, t :: rest =>
    match generate_lit_one round fs t with
    | Except.ok (fs1, pr) =>
      match generate_lits round fs1 rest with
      | Except.ok (fs2, prs) => Except.ok (fs2, pr :: prs)
      | Except.error err => Except.error err
    | Except.error err => Except.error err

/-- `Context::generate_content` (`lib.rs` lines 751-792): the rs-to-md loop
runs first, then the md-to-rs loop.  The second component lists the pairs
on which the post-generation millisecond assertion was performed. -/
def generate_content (round : mtime → mtime) (fs : FS) (srcs lits : List Transform) :
    ERes (FS × List (RawPath × RawPath)) :=
  match generate_srcs round fs srcs with
  | Except.ok fs1 => generate_lits round fs1 lits
  | Except.error err => Except.error err

/-- One re-read of `Context::check_input_timestamps`: a source that still
exists with a different mtime is a `ConcurrentUpdate`; a vanished source
falls through the `if let Modified` and is ignored. -/
def check_input_one (fsVer : FS) (t : Transform) : ERes Unit :=
  match readMtime fsVer t.original with
  | MtimeResult.Modified new_time =>
    if new_time ≠ t.source_time then
      Except.error (Error.ConcurrentUpdate t.original t.source_time new_time)
    else Except.ok ()
  | MtimeResult.NonExistant => Except.ok ()

/-- The verification loop over one transform list. -/
def check_inputs (fsVer : FS) : List Transform → ERes Unit
  | [] => Except.ok ()
  | t :: rest =>
    match check_input_one fsVer t with
    | Except.ok _ => check_inputs fsVer rest
    | Except.error err => Except.error err

/-- `Context::check_input_timestamps` (`lib.rs` lines 793-817): re-read all
`src_inputs` sources, then all `lit_inputs` sources, against the
verification-time snapshot `fsVer`. -/
def check_input_timestamps (fsVer : FS) (srcs lits : List Transform) : ERes Unit :=
  match check_inputs fsVer srcs with
  | Except.ok _ => check_inputs fsVer lits
  | Except.error err => Except.error err

/-- `Context::create_stamp`: `File::create(STAMP)` leaves an empty stamp
whose mtime is the creation instant `now`. -/
def create_stamp (fs : FS) (now : mtime) : FS := updateFS fs stampPath now

/-- `Context::adjust_stamp_timestamp` (`lib.rs` lines 822-834): when some
input was scheduled, assert its time positive and set the stamp file's
times to it (through the same rounding set-times primitive); otherwise do
nothing. -/
def adjust_stamp_timestamp (round : mtime → mtime) (fs : FS) (newest : Option mtime) : ERes FS :=
  match newest with
  | some stamp =>
    if stamp > 0 then Except.ok (updateFS fs stampPath (round stamp))
    else Except.error (Error.Panic "assertion failed: stamp > 0")
  | none => Except.ok fs

/-- The whole engine run (`process_with_stamp` when `stampTime` is `some`,
`process_without_stamp` otherwise): gather, generate, verify, create the
stamp if it did not exist, adjust the stamp.  `fsPlan` is the snapshot the
planner and generator see; `fsVer` is the snapshot of the sources at
verification time (they differ exactly when an external writer intervened);
`now` is the instant at which a fresh stamp would be created. -/
def tango_run (stampTime : Option mtime) (now : mtime) (fsPlan fsVer : FS)
    (round : mtime → mtime) (rsEntries mdEntries : List WalkEntry) : ERes (FS × Ctx) :=
  let c0 : Ctx := ⟨stampTime, [], [], none⟩
  match gather_inputs fsPlan c0 rsEntries mdEntries with
  | Except.error err => Except.error err
  | Except.ok c =>
    match generate_content round fsPlan c.src_inputs c.lit_inputs with
    | Except.error err => Except.error err
    | Except.ok (fs1, _) =>
      match check_input_timestamps fsVer c.src_inputs c.lit_inputs with
      | Except.error err => Except.error err
      | Except.ok _ =>
        let fs2 := match stampTime with
          | some _ => fs1
          | none => create_stamp fs1 now
        match adjust_stamp_timestamp round fs2 c.newest_stamp with
        | Except.error err => Except.error err
        | Except.ok fs3 => Except.ok (fs3, c)

/-! ## The two text transforms

Modelled from the spec: the modules `rs2md` and `md2rs` are not among the
sources; the state machines below follow spec sections 4.3, 4.4 and the
section-6 syntax contracts.  A text line is a list of characters. -/

/-- A line of text. -/
abbrev Line := List Char

/-- Boolean prefix test on lines (left list leads the right one). -/
def leadsWith : Line → Line → Bool
  | [], _ => true
  | _ :: _, [] => false
  | a :: as, b :: bs => a = b && leadsWith as bs

/-- The bare line-comment marker: a prose line with no content. -/
def proseMark : Line := ['/', '/']

/-- The line-comment marker followed by one space, opening a prose line. -/
def proseMarkSp : Line := ['/', '/', ' ']

/-- The fence-opening line: three backticks and the language tag. -/
def fenceOpen : Line := "```rust".toList

/-- The fence-closing line: three backticks alone. -/
def fenceClose : Line := "```".toList

/-- Source syntax contract (spec section 6): a line is prose iff it is the
marker alone or begins with the marker plus a space. -/
def isProseLine (l : Line) : Bool := l = proseMark || leadsWith proseMarkSp l

/-- The prose content of a prose line: the text after the marker. -/
def proseText (l : Line) : Line := if l = proseMark then [] else l.drop 3

/-- UTF-8 bytes of one character. -/
def utf8Bytes (c : Char) : List Nat :=
  let n := c.toNat
  if n < 128 then [n]
  else if n < 2048 then [192 + n / 64, 128 + n % 64]
  else if n < 65536 then [224 + n / 4096, 128 + (n / 64) % 64, 128 + n % 64]
  else [240 + n / 262144, 128 + (n / 4096) % 64, 128 + (n / 64) % 64, 128 + n % 64]

/-- The characters the userinfo-grade encode set leaves unescaped:
printable ASCII outside the userinfo reserved set. -/
def urlSafeChar (c : Char) : Bool :=
  32 < c.toNat && c.toNat < 127 &&
    !(['"', '#', '<', '>', '?', '/', ':', ';', '=', '@',
       '[', '\\', ']', '^', '|', '`', '\x7b', '\x7d'].contains c)

/-- One hexadecimal digit (uppercase). -/
def hexDigit (n : Nat) : Char :=
  if n < 10 then Char.ofNat (48 + n) else Char.ofNat (55 + n)

/-- Percent-encode one character through its UTF-8 bytes. -/
def percentEncodeChar (c : Char) : Line :=
  if urlSafeChar c then [c]
  else (utf8Bytes c).flatMap (fun b => ['%', hexDigit (b / 16), hexDigit (b % 16)])

/-- `str::trim`: strip whitespace from both ends. -/
def trimText (l : Line) : Line :=
  ((l.dropWhile Char.isWhitespace).reverse.dropWhile Char.isWhitespace).reverse

/-- `encode_to_url` (`lib.rs` lines 851-856): percent-encode the trimmed
code and embed it as the `code` query parameter of the playground URL. -/
def encode_to_url (code : Line) : Line :=
  "https://play.rust-lang.org/?code=".toList
    ++ (trimText code).flatMap percentEncodeChar
    ++ "&version=nightly".toList

/-- The text of a code block: its lines joined by newlines. -/
def blockText (blk : List Line) : Line := List.intercalate ['\n'] blk

/-- The auxiliary play-this-code paragraph emitted after each code block
(spec sections 2, 4.4, 6): a markdown link around `encode_to_url`. -/
def urlLine (blk : List Line) : Line :=
  "[playground](".toList ++ encode_to_url (blockText blk) ++ [')']

/-- Opening text of the documented URL paragraph form. -/
def urlHead : Line := "[playground](https://play.rust-lang.org/?code=".toList

/-- Closing text of the documented URL paragraph form. -/
def urlTail : Line := "&version=nightly)".toList

/-- Whether a line matches the documented URL paragraph form (the encoded
payload itself is only compared for the non-fatal warning). -/
def isUrlLine (l : Line) : Bool :=
  leadsWith urlHead l && leadsWith urlTail.reverse l.reverse

/-- State of the source-to-literate machine (spec section 4.3), carrying
the code block accumulated for the URL paragraph. -/
inductive RsState where
  | InProse : RsState
  | InCode : List Line → RsState
deriving DecidableEq

/-- One step of `rs2md`: prose lines close any open fence (emitting the
fence and its URL paragraph) and emit their text; empty lines pass through
unchanged without a state change; other lines are code, opening a fence
when needed. -/
def rs2md_step : RsState → Line → RsState × List Line
  | RsState.InProse, l =>
    if isProseLine l then (RsState.InProse, [proseText l])
    else if l = [] then (RsState.InProse, [[]])
    else (RsState.InCode [l], [fenceOpen, l])
  | RsState.InCode blk, l =>
    if isProseLine l then (RsState.InProse, [fenceClose, urlLine blk, proseText l])
    else if l = [] then (RsState.InCode (blk ++ [[]]), [[]])
    else (RsState.InCode (blk ++ [l]), [l])

/-- On end of input, `rs2md` closes any open fence. -/
def rs2md_finish : RsState → List Line
  | RsState.InProse => []
  | RsState.InCode blk => [fenceClose, urlLine blk]

/-- The `rs2md` traversal from a given state. -/
def rs2md_go : RsState → List Line → List Line
  | st, [] => rs2md_finish st
  | st, l :: rest =>
    let p := rs2md_step st l
    p.2 ++ rs2md_go p.1 rest

/-- The source-to-literate transform on a list of lines. -/
def rs2md (ls : List Line) : List Line := rs2md_go RsState.InProse ls

/-- State of the literate-to-source machine (spec section 4.4): prose,
inside a fence (accumulating the block), or just past a closed fence
awaiting the optional URL paragraph. -/
inductive MdState where
  | InProse : MdState
  | InCode : List Line → MdState
  | AwaitUrl : List Line → MdState
deriving DecidableEq

/-- One step of `md2rs`: fences are consumed, code is verbatim, prose is
re-prefixed (a bare marker for blank prose lines); after a fence closes,
blank lines pass while awaiting the URL paragraph, a matching URL paragraph
is consumed (its payload only checked for a warning), and anything else is
re-interpreted as prose. -/
def md2rs_step : MdState → Line → MdState × List Line
  | MdState.InProse, l =>
    if l = fenceOpen then (MdState.InCode [], [])
    else if l = [] then (MdState.InProse, [proseMark])
    else (MdState.InProse, [proseMarkSp ++ l])
  | MdState.InCode blk, l =>
    if l = fenceClose then (MdState.AwaitUrl blk, [])
    else (MdState.InCode (blk ++ [l]), [l])
  | MdState.AwaitUrl blk, l =>
    if l = [] then (MdState.AwaitUrl blk, [proseMark])
    else if isUrlLine l then (MdState.InProse, [])
    else if l = fenceOpen then (MdState.InCode [], [])
    else (MdState.InProse, [proseMarkSp ++ l])

/-- The `md2rs` traversal from a given state (nothing is pending at end of
input: every line is emitted as it is read). -/
def md2rs_go : MdState → List Line → List Line
  | _, [] => []
  | st, l :: rest =>
    let p := md2rs_step st l
    p.2 ++ md2rs_go p.1 rest

/-- The literate-to-source transform on a list of lines (the warning batch
about URL payload mismatches does not affect the emitted text and is not
modelled). -/
def md2rs (ls : List Line) : List Line := md2rs_go MdState.InProse ls

/-- Blank-prose normalization performed by a round trip: an empty prose
line and a marker-plus-space line both come back as the bare marker. -/
def normalizeBlankProse (l : Line) : Line :=
  if l = [] || l = proseMarkSp then proseMark else l

/-- The reference description of a round trip: prose lines are normalized,
empty lines inside code survive unchanged, everything else is untouched.
The Boolean argument tracks whether the current region is code. -/
def proseNorm (inCode : Bool) : List Line → List Line
  | [] => []
  | l :: rest =>
    if isProseLine l then normalizeBlankProse l :: proseNorm false rest
    else if l = [] then (if inCode then ([] : Line) else proseMark) :: proseNorm inCode rest
    else l :: proseNorm true rest

/-- Program texts on which the round trip is exact up to blank-prose
normalization: no line is a bare fence close used as code, and no prose
line's content is itself a fence-opening line. -/
def roundTripSafe (ls : List Line) : Prop :=
  ∀ l ∈ ls, l ≠ fenceClose ∧ l ≠ proseMarkSp ++ fenceOpen

instance (ls : List Line) : Decidable (roundTripSafe ls) := by
  unfold roundTripSafe; infer_instance

/-- Line-wise equality up to whitespace in blank prose lines, the relation
the round-trip claim asserts: lines agree, except that two blank prose
lines (empty, or a marker followed only by whitespace) may differ. -/
def eqUpToBlankProse : List Line → List Line → Bool
  | [], [] => true
  | x :: xs, y :: ys =>
    (x = y || ((x = [] || (leadsWith proseMark x && (x.drop 2).all Char.isWhitespace))
            && (y = [] || (leadsWith proseMark y && (y.drop 2).all Char.isWhitespace))))
      && eqUpToBlankProse xs ys
  | _, _ => false

/-! ## Survivor predicates and concrete scenarios used by the theorems -/

/-- An `.rs`-walk entry that the gathering loop does not skip. -/
def survivesRs (e : WalkEntry) : Bool :=
  keep_file_name e && decide (extensionOf (lastC e.path) = some "rs")

/-- An `.md`-walk entry that the gathering loop does not skip. -/
def survivesMd (e : WalkEntry) : Bool :=
  keep_file_name e && decide (extensionOf (lastC e.path) = some "md")

/-- Whether a fallible computation succeeded. -/
def eIsOk {ε α : Type} : Except ε α → Bool
  | Except.ok _ => true
  | Except.error _ => false

/-- The path `src/a.rs`. -/
def pathARs : RawPath := [["src"], ["a", "rs"]]

/-- The path `src/a.md`. -/
def pathAMd : RawPath := [["src"], ["a", "md"]]

/-- A snapshot with the pair `src/a.rs` / `src/a.md` both at 50000000 ns
and a stamp at 40000000 ns. -/
def fsPair : FS := fun p =>
  if p = pathARs then some 50000000
  else if p = pathAMd then some 50000000
  else if p = stampPath then some 40000000 else none

/-- A snapshot with only `src/a.rs` (at 50000000 ns) and the stamp (at
40000000 ns); its `src/a.md` target is absent. -/
def fsSolo : FS := fun p =>
  if p = pathARs then some 50000000
  else if p = stampPath then some 40000000 else none

/-- The empty snapshot: every path is absent. -/
def fsNone : FS := fun _ => none

/-- The walk entry for `src/a.rs`. -/
def entryARs : WalkEntry := ⟨pathARs, true⟩

/-- The walk entry for `src/a.md`. -/
def entryAMd : WalkEntry := ⟨pathAMd, true⟩

/-- A planned rs-to-md transform for `src/a.rs` (source newer than target
at millisecond precision). -/
def transformSrcA : Transform := ⟨2000000, MtimeResult.Modified 1000000, pathARs, pathAMd⟩

/-- A planned md-to-rs transform for `src/a.md`. -/
def transformLitA : Transform := ⟨2000000, MtimeResult.Modified 1000000, pathAMd, pathARs⟩

/-- A snapshot holding only `src/a.md` at the planning-time mtime of
`transformLitA`. -/
def fsLitA : FS := fun p => if p = pathAMd then some 2000000 else none

/-- A fresh planning context with no stamp. -/
def ctxEmpty : Ctx := ⟨none, [], [], none⟩

/-- A walk entry for a leading-period lock file `src/.lock.rs`. -/
def entryHidden : WalkEntry := ⟨[["src"], ["", "lock", "rs"]], true⟩

/-- A small literate program: prose, code, a blank code line, prose. -/
def demoProgram : List Line :=
  ["// intro".toList, "fn main()".toList, "".toList, "// done".toList]

/-! # Theorems -/

/-! ## The divergence check: claims C1, C6, C9 -/

theorem to_ms_mono {a b : mtime} (h : a ≤ b) : to_ms a ≤ to_ms b :=
  Nat.div_le_div_right h

theorem to_ms_lt_of_le_of_ne {a b : mtime} (h : a ≤ b) (hne : to_ms a ≠ to_ms b) :
    to_ms a < to_ms b :=
  lt_of_le_of_ne (to_ms_mono h) hne

/-- Claim C1 (counterexample): at exactly equal source and target
timestamps the code returns Unneeded with the precision warning, while the
claim's decision table (whose third row requires the timestamps to differ
at nanosecond precision, and which otherwise falls through to `Needed`)
answers Needed. -/
theorem claim_c1_counterexample :
    check_transform none ⟨5, MtimeResult.Modified 5, pathARs, pathAMd⟩ =
      Except.ok (TransformNeed.Unneeded, true, false) ∧
    spec_decision_table none ⟨5, MtimeResult.Modified 5, pathARs, pathAMd⟩ =
      Except.ok (TransformNeed.Needed, false, false) ∧
    check_transform none ⟨5, MtimeResult.Modified 5, pathARs, pathAMd⟩ ≠
      spec_decision_table none ⟨5, MtimeResult.Modified 5, pathARs, pathAMd⟩ := by
  refine ⟨by decide, by decide, by decide⟩

/-- Claim C1 (amended): `check_transform` agrees with the spec's decision
table everywhere once the table's third row is widened to fire whenever the
two timestamps agree at millisecond precision and the target is not
strictly newer at nanosecond precision (in particular on exactly equal
timestamps); every other row is exactly as the claim states it. -/
theorem claim_c1 (orig_stamp : Option mtime) (t : Transform) :
    check_transform orig_stamp t = spec_decision_table_amended orig_stamp t := by
  unfold check_transform spec_decision_table_amended
  cases t.target_time with
  | NonExistant => rfl
  | Modified t_mod =>
    simp only
    by_cases h1 : t_mod > t.source_time
    · simp [h1]
    · simp only [if_neg h1]
      by_cases h2 : to_ms t.source_time = to_ms t_mod
      · simp [h2]
      · have h2' : ¬ to_ms t_mod = to_ms t.source_time := fun h => h2 h.symm
        have hlt : to_ms t_mod < to_ms t.source_time :=
          to_ms_lt_of_le_of_ne (le_of_not_lt h1) h2'
        simp only [if_neg h2, if_neg h2', if_pos hlt]
        cases orig_stamp with
        | none => rfl
        | some stamp_time =>
          by_cases h4 : to_ms stamp_time < to_ms t_mod
          · simp [h4]
          · simp only [if_neg h4]
            by_cases h5 : stamp_time < t_mod
            · have hle : to_ms stamp_time ≤ to_ms t_mod := to_ms_mono (le_of_lt h5)
              have heq : to_ms stamp_time = to_ms t_mod :=
                le_antisymm hle (le_of_not_lt h4)
              simp [h5, h4, heq]
            · simp [h5, h4]

/-- Claim C6: every transform the divergence check classifies as `Needed`
has an absent target, or a target no newer than the source at millisecond
precision. -/
theorem claim_c6 (orig_stamp : Option mtime) (t : Transform) (wa wb : Bool)
    (h : check_transform orig_stamp t = Except.ok (TransformNeed.Needed, wa, wb)) :
    t.target_time = MtimeResult.NonExistant ∨
      ∃ tm, t.target_time = MtimeResult.Modified tm ∧ to_ms tm ≤ to_ms t.source_time := by
  cases ht : t.target_time with
  | NonExistant => exact Or.inl rfl
  | Modified tm =>
    refine Or.inr ⟨tm, rfl, ?_⟩
    unfold check_transform at h
    rw [ht] at h
    simp only at h
    by_cases h1 : tm > t.source_time
    · simp [h1] at h
    · exact to_ms_mono (le_of_not_lt h1)

/-- Claim C6 (witness): a concrete `Needed` classification satisfying the
invariant. -/
theorem claim_c6_witness :
    check_transform (some 2000000) transformSrcA =
      Except.ok (TransformNeed.Needed, false, false) ∧
    (transformSrcA.target_time = MtimeResult.NonExistant ∨
      ∃ tm, transformSrcA.target_time = MtimeResult.Modified tm ∧
        to_ms tm ≤ to_ms transformSrcA.source_time) :=
  ⟨by decide, claim_c6 (some 2000000) transformSrcA false false (by decide)⟩

/-- Claim C9 (counterexample): source 0 ns and target 1 ns agree at
millisecond precision, yet the code classifies the pair Unneeded through
the target-strictly-newer branch and emits no precision warning — so the
warning is not emitted in every millisecond-equal case. -/
theorem claim_c9_counterexample :
    to_ms 0 = to_ms 1 ∧
    check_transform none ⟨0, MtimeResult.Modified 1, pathARs, pathAMd⟩ =
      Except.ok (TransformNeed.Unneeded, false, false) := by
  exact ⟨by decide, by decide⟩

/-- Claim C9 (amended): whenever source and target agree at millisecond
precision the transform is classified Unneeded, and the precision warning
is emitted exactly when the target is not strictly newer at nanosecond
precision — in particular it is emitted when the timestamps are identical. -/
theorem claim_c9 (orig_stamp : Option mtime) (t : Transform) (t_mod : mtime)
    (ht : t.target_time = MtimeResult.Modified t_mod)
    (hms : to_ms t.source_time = to_ms t_mod) :
    check_transform orig_stamp t =
      Except.ok (TransformNeed.Unneeded, decide (t_mod ≤ t.source_time), false) := by
  unfold check_transform
  rw [ht]
  simp only
  by_cases h1 : t_mod > t.source_time
  · simp [h1, Nat.not_le.mpr h1]
  · simp [h1, hms, Nat.le_of_not_lt h1]

/-- Claim C9 (witness): at identical timestamps the classification is
Unneeded and the warning fires. -/
theorem claim_c9_witness :
    check_transform none ⟨5, MtimeResult.Modified 5, pathARs, pathAMd⟩ =
      Except.ok (TransformNeed.Unneeded, decide ((5 : mtime) ≤ 5), false) :=
  claim_c9 none ⟨5, MtimeResult.Modified 5, pathARs, pathAMd⟩ 5 rfl rfl

/-! ## Path counterparts: claim C7 -/

theorem extensionOf_append (xs : List String) (x : String)
    (h1 : xs ≠ []) (h2 : xs ≠ [""]) : extensionOf (xs ++ [x]) = some x := by
  rcases xs with _ | ⟨a, as⟩
  · exact absurd rfl h1
  · unfold extensionOf
    have hA : ¬ ((a :: as) ++ [x]).length ≤ 1 := by
      simp [List.length_append]
    have hB : ¬ (((a :: as) ++ [x]).head? = some "" ∧ ((a :: as) ++ [x]).length = 2) := by
      rintro ⟨ha, hlen⟩
      simp only [List.cons_append, List.head?_cons, Option.some.injEq] at ha
      simp only [List.cons_append, List.length_cons, List.length_append,
        List.length_singleton] at hlen
      have has : as = [] := by
        cases as with
        | nil => rfl
        | cons b bs => simp at hlen
      subst has; subst ha
      exact h2 rfl
    rw [if_neg hA, if_neg hB]
    exact List.getLast?_concat _

theorem extensionOf_decomp (c : FileName) (e : String)
    (h : extensionOf c = some e) :
    c = c.dropLast ++ [e] ∧ c.dropLast ≠ [] ∧ c.dropLast ≠ [""] := by
  unfold extensionOf at h
  split at h
  · exact absurd h (by simp)
  · split at h
    · exact absurd h (by simp)
    · rename_i hlen hpat
      have hne : c ≠ [] := by
        intro hc; subst hc; simp at hlen
      have hget : c.getLast hne = e := by
        have hh := List.getLast?_eq_getLast c hne
        rw [hh] at h
        exact Option.some.inj h
      have hdecomp : c.dropLast ++ [e] = c := by
        rw [← hget]; exact List.dropLast_append_getLast hne
      refine ⟨hdecomp.symm, ?_, ?_⟩
      · intro hnil
        have : c.length ≤ 1 := by
          have hlc := congrArg List.length hdecomp
          rw [hnil] at hlc
          simpa using hlc.symm.le
        exact hlen this
      · intro hsingle
        apply hpat
        rw [← hdecomp, hsingle]
        exact ⟨rfl, rfl⟩

theorem setExtF_ext (c : FileName) (e x : String) (h : extensionOf c = some e) :
    setExtF c x = c.dropLast ++ [x] := by
  unfold setExtF; rw [h]

theorem ext_setExtF (c : FileName) (e x : String) (h : extensionOf c = some e) :
    extensionOf (setExtF c x) = some x := by
  rw [setExtF_ext c e x h]
  obtain ⟨_, h2, h3⟩ := extensionOf_decomp c e h
  exact extensionOf_append _ _ h2 h3

theorem setExtF_roundtrip (c : FileName) (e x : String) (h : extensionOf c = some e) :
    setExtF (setExtF c x) e = c := by
  rw [setExtF_ext c e x h]
  obtain ⟨h1, h2, h3⟩ := extensionOf_decomp c e h
  rw [setExtF_ext _ x e (extensionOf_append _ _ h2 h3)]
  rw [List.dropLast_concat]
  exact h1.symm

theorem set_extension_ne_nil (t : RawPath) (x : String) (h : t ≠ []) :
    set_extension t x ≠ [] := by
  rcases t with _ | ⟨c, t'⟩
  · exact absurd rfl h
  · rcases t' with _ | ⟨c2, cs⟩ <;> simp [set_extension]

theorem set_ext_props (t : RawPath) (e x : String)
    (h : extensionOf (lastC t) = some e) (hne : t ≠ []) :
    lastC (set_extension t x) = setExtF (lastC t) x ∧
    set_extension (set_extension t x) e = t := by
  induction t with
  | nil => exact absurd rfl hne
  | cons c t' ih =>
    cases t' with
    | nil =>
      have hl : lastC [c] = c := rfl
      rw [hl] at h
      constructor
      · rfl
      · show [setExtF (setExtF c x) e] = [c]
        rw [setExtF_roundtrip c e x h]
    | cons c2 cs =>
      have hlast : lastC (c :: c2 :: cs) = lastC (c2 :: cs) := by
        simp [lastC, List.getLast?_cons_cons]
      rw [hlast] at h
      obtain ⟨ih1, ih2⟩ := ih h (by simp)
      have hr : set_extension (c :: c2 :: cs) x = c :: set_extension (c2 :: cs) x := rfl
      have hrne := set_extension_ne_nil (c2 :: cs) x (by simp)
      rcases hrr : set_extension (c2 :: cs) x with _ | ⟨r0, rr⟩
      · exact absurd hrr hrne
      · constructor
        · rw [hr, hrr]
          have : lastC (c :: r0 :: rr) = lastC (r0 :: rr) := by
            simp [lastC, List.getLast?_cons_cons]
          rw [this, ← hrr, ih1, hlast]
        · rw [hr, hrr]
          show c :: set_extension (r0 :: rr) e = c :: c2 :: cs
          rw [← hrr, ih2]

theorem counterpart_props (p : RawPath) (e x : String)
    (hhead : p.head? = some ["src"]) (hext : extensionOf (lastC p) = some e) :
    (set_extension (["src"] :: p.tail) x).head? = some ["src"] ∧
    extensionOf (lastC (set_extension (["src"] :: p.tail) x)) = some x ∧
    set_extension (["src"] :: (set_extension (["src"] :: p.tail) x).tail) e = p := by
  rcases p with _ | ⟨c0, t⟩
  · simp at hhead
  · simp only [List.head?_cons, Option.some.injEq] at hhead
    subst hhead
    rcases t with _ | ⟨t0, tt⟩
    · simp [lastC, extensionOf] at hext
    · have hlp : lastC (["src"] :: t0 :: tt) = lastC (t0 :: tt) := by
        simp [lastC, List.getLast?_cons_cons]
      rw [hlp] at hext
      obtain ⟨hp1, hp2⟩ := set_ext_props (t0 :: tt) e x hext (by simp)
      have hse : set_extension (["src"] :: t0 :: tt) x =
          ["src"] :: set_extension (t0 :: tt) x := rfl
      have hrne := set_extension_ne_nil (t0 :: tt) x (by simp)
      rcases hrr : set_extension (t0 :: tt) x with _ | ⟨r0, rr⟩
      · exact absurd hrr hrne
      · simp only [List.tail_cons]
        refine ⟨by rw [hse]; rfl, ?_, ?_⟩
        · rw [hse, hrr]
          have : lastC (["src"] :: r0 :: rr) = lastC (r0 :: rr) := by
            simp [lastC, List.getLast?_cons_cons]
          rw [this, ← hrr, hp1]
          exact ext_setExtF _ e x hext
        · rw [hse, hrr]
          show set_extension (["src"] :: r0 :: rr) e = ["src"] :: t0 :: tt
          have : set_extension (["src"] :: r0 :: rr) e =
              ["src"] :: set_extension (r0 :: rr) e := rfl
          rw [this, ← hrr, hp2]

/-- Claim C7: the counterpart computation strips the leading root, installs
the peer root, and replaces the extension; on validated paths the result is
valid for the peer kind and the two counterpart operations compose to the
identity in both directions. -/
theorem claim_c7 :
    (∀ p, check_path_ok p "rs" srcDir →
      check_path_ok (to_md p) "md" litDir ∧ to_rs (to_md p) = p) ∧
    (∀ q, check_path_ok q "md" litDir →
      check_path_ok (to_rs q) "rs" srcDir ∧ to_md (to_rs q) = q) := by
  constructor
  · rintro p ⟨hext, hhead⟩
    obtain ⟨h1, h2, h3⟩ := counterpart_props p "rs" "md" hhead hext
    exact ⟨⟨h2, h1⟩, h3⟩
  · rintro q ⟨hext, hhead⟩
    obtain ⟨h1, h2, h3⟩ := counterpart_props q "md" "rs" hhead hext
    exact ⟨⟨h2, h1⟩, h3⟩

/-- Claim C7 (witness): the concrete pair `src/a.rs` and `src/a.md`. -/
theorem claim_c7_witness :
    check_path_ok pathARs "rs" srcDir ∧
    check_path_ok (to_md pathARs) "md" litDir ∧ to_rs (to_md pathARs) = pathARs :=
  ⟨by decide, claim_c7.1 pathARs (by decide)⟩

/-! ## Concurrent-update verification: claims C4, C10 -/

theorem check_inputs_ok_iff (fsVer : FS) (ts : List Transform) :
    check_inputs fsVer ts = Except.ok () ↔
      ∀ t ∈ ts, ∀ n, fsVer t.original = some n → n = t.source_time := by
  induction ts with
  | nil => simp [check_inputs]
  | cons t rest ih =>
    cases hf : fsVer t.original with
    | none =>
      simp only [check_inputs, check_input_one, readMtime, hf]
      rw [ih]
      constructor
      · intro h u hu n hn
        rcases List.mem_cons.mp hu with hu | hu
        · subst hu; rw [hf] at hn; cases hn
        · exact h u hu n hn
      · intro h u hu n hn
        exact h u (List.mem_cons_of_mem _ hu) n hn
    | some n =>
      by_cases hn : n = t.source_time
      · subst hn
        simp only [check_inputs, check_input_one, readMtime, hf]
        rw [if_neg (show ¬ (t.source_time ≠ t.source_time) by simp)]
        rw [ih]
        constructor
        · intro h u hu m hm
          rcases List.mem_cons.mp hu with hu | hu
          · subst hu; rw [hf] at hm; exact (Option.some.inj hm).symm
          · exact h u hu m hm
        · intro h u hu m hm
          exact h u (List.mem_cons_of_mem _ hu) m hm
      · simp only [check_inputs, check_input_one, readMtime, hf]
        rw [if_pos (by simpa using hn)]
        constructor
        · intro h; cases h
        · intro h
          exact absurd (h t (List.mem_cons_self t rest) n hf) hn

theorem check_inputs_error_shape (fsVer : FS) (ts : List Transform) (e : Error)
    (h : check_inputs fsVer ts = Except.error e) :
    ∃ p old new, e = Error.ConcurrentUpdate p old new ∧ new ≠ old ∧
      fsVer p = some new ∧ ∃ t, t ∈ ts ∧ t.original = p ∧ t.source_time = old := by
  induction ts with
  | nil => simp [check_inputs] at h
  | cons t rest ih =>
    cases hf : fsVer t.original with
    | none =>
      simp only [check_inputs, check_input_one, readMtime, hf] at h
      obtain ⟨p, old, new, h1, h2, h3, u, hu, h4, h5⟩ := ih h
      exact ⟨p, old, new, h1, h2, h3, u, List.mem_cons_of_mem _ hu, h4, h5⟩
    | some n =>
      by_cases hn : n = t.source_time
      · subst hn
        simp only [check_inputs, check_input_one, readMtime, hf] at h
        rw [if_neg (by simp)] at h
        obtain ⟨p, old, new, h1, h2, h3, u, hu, h4, h5⟩ := ih h
        exact ⟨p, old, new, h1, h2, h3, u, List.mem_cons_of_mem _ hu, h4, h5⟩
      · simp only [check_inputs, check_input_one, readMtime, hf] at h
        rw [if_pos (by simpa using hn)] at h
        refine ⟨t.original, t.source_time, n, ?_, hn, hf,
          t, List.mem_cons_self t rest, rfl, rfl⟩
        injection h with h; exact h.symm

/-- Claim C4: the verification pass re-reads every planned transform's
source mtime against the verification-time snapshot; it succeeds exactly
when every source that still exists carries its planning-time mtime, and on
failure the error is a `ConcurrentUpdate` carrying the offending source
path together with the planning-time and the newly observed timestamps. -/
theorem claim_c4 :
    (∀ (fsVer : FS) (srcs lits : List Transform),
      check_input_timestamps fsVer srcs lits = Except.ok () ↔
        ∀ t ∈ srcs ++ lits, ∀ n, fsVer t.original = some n → n = t.source_time) ∧
    (∀ (fsVer : FS) (srcs lits : List Transform) (e : Error),
      check_input_timestamps fsVer srcs lits = Except.error e →
        ∃ p old new, e = Error.ConcurrentUpdate p old new ∧ new ≠ old ∧
          fsVer p = some new ∧
          ∃ t, t ∈ srcs ++ lits ∧ t.original = p ∧ t.source_time = old) := by
  constructor
  · intro fsVer srcs lits
    unfold check_input_timestamps
    cases hs : check_inputs fsVer srcs with
    | ok u =>
      cases u
      rw [check_inputs_ok_iff]
      have hsrc := (check_inputs_ok_iff fsVer srcs).mp hs
      constructor
      · intro h u hu n hn
        rcases List.mem_append.mp hu with hu | hu
        · exact hsrc u hu n hn
        · exact h u hu n hn
      · intro h u hu n hn
        exact h u (List.mem_append_right _ hu) n hn
    | error err =>
      constructor
      · intro h; cases h
      · intro h
        have : check_inputs fsVer srcs = Except.ok () :=
          (check_inputs_ok_iff fsVer srcs).mpr
            (fun u hu n hn => h u (List.mem_append_left _ hu) n hn)
        rw [this] at hs; cases hs
  · intro fsVer srcs lits e h
    unfold check_input_timestamps at h
    cases hs : check_inputs fsVer srcs with
    | ok u =>
      rw [hs] at h
      obtain ⟨p, old, new, h1, h2, h3, u2, hu, h4, h5⟩ :=
        check_inputs_error_shape fsVer lits e h
      exact ⟨p, old, new, h1, h2, h3, u2, List.mem_append_right _ hu, h4, h5⟩
    | error err =>
      rw [hs] at h
      injection h with hh
      subst hh
      obtain ⟨p, old, new, h1, h2, h3, u2, hu, h4, h5⟩ :=
        check_inputs_error_shape fsVer srcs err hs
      exact ⟨p, old, new, h1, h2, h3, u2, List.mem_append_left _ hu, h4, h5⟩

/-- Claim C4 (witness): a run whose sources all carry their planning-time
mtimes verifies cleanly. -/
theorem claim_c4_witness :
    check_input_timestamps (fun _ => some 2000000) [transformSrcA] [] = Except.ok () :=
  (claim_c4.1 (fun _ => some 2000000) [transformSrcA] []).mpr (by
    intro t ht n hn
    simp only [List.append_nil, List.mem_singleton] at ht
    subst ht
    simpa [transformSrcA] using hn.symm)

/-- Claim C10: a source that has vanished by verification time is silently
treated as unchanged — only still-present sources with a different mtime
can fail the pass — and in the concrete vanished-source run below the
engine still succeeds, generates the target, and advances the stamp. -/
theorem claim_c10 :
    (∀ (fsVer : FS) (srcs lits : List Transform),
      (∀ t ∈ srcs ++ lits,
        fsVer t.original = none ∨ fsVer t.original = some t.source_time) →
      check_input_timestamps fsVer srcs lits = Except.ok ()) ∧
    ((tango_run (some 40000000) 0 fsSolo fsNone id [entryARs] []).map
        (fun r => (r.1 stampPath, r.1 pathAMd)) =
      Except.ok (some 50000000, some 50000000) ∧
     fsNone pathARs = none) := by
  constructor
  · intro fsVer srcs lits h
    unfold check_input_timestamps
    have hsrc : check_inputs fsVer srcs = Except.ok () := by
      rw [check_inputs_ok_iff]
      intro t ht n hn
      rcases h t (List.mem_append_left _ ht) with hh | hh
      · rw [hh] at hn; cases hn
      · rw [hh] at hn; exact (Option.some.inj hn).symm
    rw [hsrc]
    rw [check_inputs_ok_iff]
    intro t ht n hn
    rcases h t (List.mem_append_right _ ht) with hh | hh
    · rw [hh] at hn; cases hn
    · rw [hh] at hn; exact (Option.some.inj hn).symm
  · exact ⟨by decide, rfl⟩

/-- Claim C10 (witness): every source vanished, and verification still
succeeds. -/
theorem claim_c10_witness :
    check_input_timestamps fsNone [transformSrcA] [transformLitA] = Except.ok () :=
  claim_c10.1 fsNone [transformSrcA] [transformLitA] (by intro t ht; left; rfl)

/-! ## The planner walk: claim C8 -/

theorem gather_one_rs_skip (fs : FS) (c : Ctx) (e : WalkEntry)
    (h : survivesRs e = false) : gather_one_rs fs c e = Except.ok c := by
  unfold survivesRs at h
  unfold gather_one_rs
  by_cases hk : keep_file_name e
  · rw [hk] at h
    simp only [Bool.true_and, decide_eq_false_iff_not] at h
    simp [hk, h]
  · have hkf : keep_file_name e = false := by simpa using hk
    simp [hkf]

theorem gather_one_md_skip (fs : FS) (c : Ctx) (e : WalkEntry)
    (h : survivesMd e = false) : gather_one_md fs c e = Except.ok c := by
  unfold survivesMd at h
  unfold gather_one_md
  by_cases hk : keep_file_name e
  · rw [hk] at h
    simp only [Bool.true_and, decide_eq_false_iff_not] at h
    simp [hk, h]
  · have hkf : keep_file_name e = false := by simpa using hk
    simp [hkf]

theorem gather_one_rs_surv (fs : FS) (c : Ctx) (e : WalkEntry)
    (h : survivesRs e = true) :
    gather_one_rs fs c e =
      (match path_new e.path "rs" srcDir with
       | Except.error err => Except.error err
       | Except.ok p =>
         match mk_transform fs p (to_md p) with
         | Except.error err => Except.error err
         | Except.ok t =>
           match check_transform c.orig_stamp t with
           | Except.ok (TransformNeed.Needed, _, _) => Except.ok (push_src c t)
           | Except.ok (TransformNeed.Unneeded, _, _) => Except.ok c
           | Except.error e => Except.error (Error.CheckInputError e)) := by
  unfold survivesRs at h
  rw [Bool.and_eq_true, decide_eq_true_eq] at h
  unfold gather_one_rs
  simp [h.1, h.2]

theorem gather_one_md_surv (fs : FS) (c : Ctx) (e : WalkEntry)
    (h : survivesMd e = true) :
    gather_one_md fs c e =
      (match path_new e.path "md" litDir with
       | Except.error err => Except.error err
       | Except.ok p =>
         match mk_transform fs p (to_rs p) with
         | Except.error err => Except.error err
         | Except.ok t =>
           match check_transform c.orig_stamp t with
           | Except.ok (TransformNeed.Needed, _, _) => Except.ok (push_lit c t)
           | Except.ok (TransformNeed.Unneeded, _, _) => Except.ok c
           | Except.error e => Except.error (Error.CheckInputError e)) := by
  unfold survivesMd at h
  rw [Bool.and_eq_true, decide_eq_true_eq] at h
  unfold gather_one_md
  simp [h.1, h.2]

theorem gather_rs_filter (fs : FS) (c : Ctx) (es : List WalkEntry) :
    gather_rs fs c (es.filter survivesRs) = gather_rs fs c es := by
  induction es generalizing c with
  | nil => rfl
  | cons e es ih =>
    by_cases hs : survivesRs e
    · rw [List.filter_cons_of_pos hs]
      show (match gather_one_rs fs c e with
            | Except.ok c1 => gather_rs fs c1 (es.filter survivesRs)
            | Except.error err => Except.error err) = _
      cases hr : gather_one_rs fs c e with
      | ok c1 => simp only [gather_rs, hr, ih]
      | error err => simp only [gather_rs, hr]
    · rw [List.filter_cons_of_neg (by simpa using hs)]
      rw [ih]
      show _ = (match gather_one_rs fs c e with
            | Except.ok c1 => gather_rs fs c1 es
            | Except.error err => Except.error err)
      rw [gather_one_rs_skip fs c e (by simpa using hs)]

theorem gather_md_filter (fs : FS) (c : Ctx) (es : List WalkEntry) :
    gather_md fs c (es.filter survivesMd) = gather_md fs c es := by
  induction es generalizing c with
  | nil => rfl
  | cons e es ih =>
    by_cases hs : survivesMd e
    · rw [List.filter_cons_of_pos hs]
      show (match gather_one_md fs c e with
            | Except.ok c1 => gather_md fs c1 (es.filter survivesMd)
            | Except.error err => Except.error err) = _
      cases hr : gather_one_md fs c e with
      | ok c1 => simp only [gather_md, hr, ih]
      | error err => simp only [gather_md, hr]
    · rw [List.filter_cons_of_neg (by simpa using hs)]
      rw [ih]
      show _ = (match gather_one_md fs c e with
            | Except.ok c1 => gather_md fs c1 es
            | Except.error err => Except.error err)
      rw [gather_one_md_skip fs c e (by simpa using hs)]

/-- Claim C8: in each of the two walks, exactly the entries with an
invalid or leading-period file name or the wrong extension are skipped
(removing them changes nothing); every surviving entry is submitted to the
divergence check, whose error aborts planning as a `CheckInputError`,
whose `Unneeded` answer drops the entry silently, and whose `Needed`
answer enqueues the transform. -/
theorem claim_c8 :
    (∀ (fs : FS) (c : Ctx) (es : List WalkEntry),
      gather_rs fs c (es.filter survivesRs) = gather_rs fs c es) ∧
    (∀ (fs : FS) (c : Ctx) (e : WalkEntry) (es : List WalkEntry) (p : RawPath)
        (t : Transform) (k : CheckErrorKind),
      survivesRs e = true →
      path_new e.path "rs" srcDir = Except.ok p →
      mk_transform fs p (to_md p) = Except.ok t →
      check_transform c.orig_stamp t = Except.error k →
      gather_rs fs c (e :: es) = Except.error (Error.CheckInputError k)) ∧
    (∀ (fs : FS) (c : Ctx) (e : WalkEntry) (es : List WalkEntry) (p : RawPath)
        (t : Transform) (w1 w2 : Bool),
      survivesRs e = true →
      path_new e.path "rs" srcDir = Except.ok p →
      mk_transform fs p (to_md p) = Except.ok t →
      check_transform c.orig_stamp t = Except.ok (TransformNeed.Unneeded, w1, w2) →
      gather_rs fs c (e :: es) = gather_rs fs c es) ∧
    (∀ (fs : FS) (c : Ctx) (e : WalkEntry) (es : List WalkEntry) (p : RawPath)
        (t : Transform) (w1 w2 : Bool),
      survivesRs e = true →
      path_new e.path "rs" srcDir = Except.ok p →
      mk_transform fs p (to_md p) = Except.ok t →
      check_transform c.orig_stamp t = Except.ok (TransformNeed.Needed, w1, w2) →
      gather_rs fs c (e :: es) = gather_rs fs (push_src c t) es) ∧
    (∀ (fs : FS) (c : Ctx) (es : List WalkEntry),
      gather_md fs c (es.filter survivesMd) = gather_md fs c es) ∧
    (∀ (fs : FS) (c : Ctx) (e : WalkEntry) (es : List WalkEntry) (p : RawPath)
        (t : Transform) (k : CheckErrorKind),
      survivesMd e = true →
      path_new e.path "md" litDir = Except.ok p →
      mk_transform fs p (to_rs p) = Except.ok t →
      check_transform c.orig_stamp t = Except.error k →
      gather_md fs c (e :: es) = Except.error (Error.CheckInputError k)) ∧
    (∀ (fs : FS) (c : Ctx) (e : WalkEntry) (es : List WalkEntry) (p : RawPath)
        (t : Transform) (w1 w2 : Bool),
      survivesMd e = true →
      path_new e.path "md" litDir = Except.ok p →
      mk_transform fs p (to_rs p) = Except.ok t →
      check_transform c.orig_stamp t = Except.ok (TransformNeed.Unneeded, w1, w2) →
      gather_md fs c (e :: es) = gather_md fs c es) ∧
    (∀ (fs : FS) (c : Ctx) (e : WalkEntry) (es : List WalkEntry) (p : RawPath)
        (t : Transform) (w1 w2 : Bool),
      survivesMd e = true →
      path_new e.path "md" litDir = Except.ok p →
      mk_transform fs p (to_rs p) = Except.ok t →
      check_transform c.orig_stamp t = Except.ok (TransformNeed.Needed, w1, w2) →
      gather_md fs c (e :: es) = gather_md fs (push_lit c t) es) := by
  refine ⟨gather_rs_filter, ?_, ?_, ?_, gather_md_filter, ?_, ?_, ?_⟩
  · intro fs c e es p t k hs hp hmk hc
    simp only [gather_rs, gather_one_rs_surv fs c e hs, hp, hmk, hc]
  · intro fs c e es p t w1 w2 hs hp hmk hc
    simp only [gather_rs, gather_one_rs_surv fs c e hs, hp, hmk, hc]
  · intro fs c e es p t w1 w2 hs hp hmk hc
    simp only [gather_rs, gather_one_rs_surv fs c e hs, hp, hmk, hc]
  · intro fs c e es p t k hs hp hmk hc
    simp only [gather_md, gather_one_md_surv fs c e hs, hp, hmk, hc]
  · intro fs c e es p t w1 w2 hs hp hmk hc
    simp only [gather_md, gather_one_md_surv fs c e hs, hp, hmk, hc]
  · intro fs c e es p t w1 w2 hs hp hmk hc
    simp only [gather_md, gather_one_md_surv fs c e hs, hp, hmk, hc]

/-- Claim C8 (witness): a leading-period lock file is skipped — the walk
with it and the walk without it plan identically, and an Unneeded pair is
dropped silently. -/
theorem claim_c8_witness :
    gather_rs fsNone ctxEmpty ([entryHidden].filter survivesRs) =
      gather_rs fsNone ctxEmpty [entryHidden] ∧
    gather_rs fsPair ⟨some 40000000, [], [], none⟩ [entryARs] =
      gather_rs fsPair ⟨some 40000000, [], [], none⟩ [] := by
  constructor
  · exact claim_c8.1 fsNone ctxEmpty [entryHidden]
  · exact claim_c8.2.2.1 fsPair ⟨some 40000000, [], [], none⟩ entryARs []
      pathARs ⟨50000000, MtimeResult.Modified 50000000, pathARs, pathAMd⟩ true false
      (by decide) (by decide) (by decide) (by decide)

/-! ## The stamp after a run: claim C2 -/

theorem to_md_ne_stamp (p : RawPath) : to_md p ≠ stampPath := by
  unfold to_md litDir
  cases ht : p.tail with
  | nil => decide
  | cons t0 tt =>
    intro h
    have : (["src"] : FileName) :: set_extension (t0 :: tt) "md" = stampPath := h
    rw [stampPath] at this
    have := (List.cons.injEq _ _ _ _).mp this
    exact absurd this.1 (by decide)

theorem to_rs_ne_stamp (p : RawPath) : to_rs p ≠ stampPath := by
  unfold to_rs srcDir
  cases ht : p.tail with
  | nil => decide
  | cons t0 tt =>
    intro h
    have : (["src"] : FileName) :: set_extension (t0 :: tt) "rs" = stampPath := h
    rw [stampPath] at this
    have := (List.cons.injEq _ _ _ _).mp this
    exact absurd this.1 (by decide)

theorem mk_transform_shape (fs : FS) (p tgt : RawPath) (t : Transform)
    (h : mk_transform fs p tgt = Except.ok t) :
    ∃ s, fs p = some s ∧ t = ⟨s, readMtime fs tgt, p, tgt⟩ := by
  unfold mk_transform at h
  cases hf : fs p with
  | none => rw [hf] at h; cases h
  | some s =>
    rw [hf] at h
    injection h with h
    exact ⟨s, rfl, h.symm⟩

theorem gather_one_rs_shape (fs : FS) (c : Ctx) (e : WalkEntry) (c1 : Ctx)
    (h : gather_one_rs fs c e = Except.ok c1) :
    c1 = c ∨ ∃ t : Transform, c1 = push_src c t ∧ t.generate ≠ stampPath := by
  unfold gather_one_rs at h
  split at h
  · exact Or.inl (by injection h with h; exact h.symm)
  · split at h
    · exact Or.inl (by injection h with h; exact h.symm)
    · split at h
      · cases h
      · rename_i p hp
        split at h
        · cases h
        · rename_i t hmk
          obtain ⟨s, hfs, hts⟩ := mk_transform_shape fs p (to_md p) t hmk
          split at h
          · injection h with h
            refine Or.inr ⟨t, h.symm, ?_⟩
            rw [hts]
            exact to_md_ne_stamp p
          · exact Or.inl (by injection h with h; exact h.symm)
          · cases h

theorem gather_one_md_shape (fs : FS) (c : Ctx) (e : WalkEntry) (c1 : Ctx)
    (h : gather_one_md fs c e = Except.ok c1) :
    c1 = c ∨ ∃ t : Transform, c1 = push_lit c t ∧ t.generate ≠ stampPath := by
  unfold gather_one_md at h
  split at h
  · exact Or.inl (by injection h with h; exact h.symm)
  · split at h
    · exact Or.inl (by injection h with h; exact h.symm)
    · split at h
      · cases h
      · rename_i p hp
        split at h
        · cases h
        · rename_i t hmk
          obtain ⟨s, hfs, hts⟩ := mk_transform_shape fs p (to_rs p) t hmk
          split at h
          · injection h with h
            refine Or.inr ⟨t, h.symm, ?_⟩
            rw [hts]
            exact to_rs_ne_stamp p
          · exact Or.inl (by injection h with h; exact h.symm)
          · cases h

theorem push_src_fields (c : Ctx) (t : Transform) :
    (push_src c t).orig_stamp = c.orig_stamp ∧
    (push_src c t).lit_inputs = c.lit_inputs ∧
    (push_src c t).src_inputs = c.src_inputs ++ [t] ∧
    (push_src c t).newest_stamp = newestOf c.newest_stamp t.source_time :=
  ⟨rfl, rfl, rfl, rfl⟩

theorem push_lit_fields (c : Ctx) (t : Transform) :
    (push_lit c t).orig_stamp = c.orig_stamp ∧
    (push_lit c t).src_inputs = c.src_inputs ∧
    (push_lit c t).lit_inputs = c.lit_inputs ++ [t] ∧
    (push_lit c t).newest_stamp = newestOf c.newest_stamp t.source_time :=
  ⟨rfl, rfl, rfl, rfl⟩

theorem gather_rs_evolve (fs : FS) (es : List WalkEntry) :
    ∀ (c c' : Ctx), gather_rs fs c es = Except.ok c' →
    ∃ ts : List Transform,
      c'.orig_stamp = c.orig_stamp ∧
      c'.lit_inputs = c.lit_inputs ∧
      c'.src_inputs = c.src_inputs ++ ts ∧
      c'.newest_stamp =
        ts.foldl (fun a t => newestOf a t.source_time) c.newest_stamp ∧
      ∀ t ∈ ts, t.generate ≠ stampPath := by
  induction es with
  | nil =>
    intro c c' h
    injection h with h
    subst h
    exact ⟨[], rfl, rfl, by simp, rfl, by simp⟩
  | cons e es ih =>
    intro c c' h
    simp only [gather_rs] at h
    cases hr : gather_one_rs fs c e with
    | error err => rw [hr] at h; cases h
    | ok c1 =>
      rw [hr] at h
      obtain ⟨ts, h1, h2, h3, h4, h5⟩ := ih c1 c' h
      rcases gather_one_rs_shape fs c e c1 hr with hc | ⟨t0, hc, hgen⟩
      · subst hc
        exact ⟨ts, h1, h2, h3, h4, h5⟩
      · subst hc
        refine ⟨t0 :: ts, h1, h2, ?_, ?_, ?_⟩
        · rw [h3, (push_src_fields c t0).2.2.1, List.append_assoc]
          rfl
        · rw [h4, (push_src_fields c t0).2.2.2]
          rfl
        · intro t ht
          rcases List.mem_cons.mp ht with ht | ht
          · subst ht; exact hgen
          · exact h5 t ht

theorem gather_md_evolve (fs : FS) (es : List WalkEntry) :
    ∀ (c c' : Ctx), gather_md fs c es = Except.ok c' →
    ∃ ts : List Transform,
      c'.orig_stamp = c.orig_stamp ∧
      c'.src_inputs = c.src_inputs ∧
      c'.lit_inputs = c.lit_inputs ++ ts ∧
      c'.newest_stamp =
        ts.foldl (fun a t => newestOf a t.source_time) c.newest_stamp ∧
      ∀ t ∈ ts, t.generate ≠ stampPath := by
  induction es with
  | nil =>
    intro c c' h
    injection h with h
    subst h
    exact ⟨[], rfl, rfl, by simp, rfl, by simp⟩
  | cons e es ih =>
    intro c c' h
    simp only [gather_md] at h
    cases hr : gather_one_md fs c e with
    | error err => rw [hr] at h; cases h
    | ok c1 =>
      rw [hr] at h
      obtain ⟨ts, h1, h2, h3, h4, h5⟩ := ih c1 c' h
      rcases gather_one_md_shape fs c e c1 hr with hc | ⟨t0, hc, hgen⟩
      · subst hc
        exact ⟨ts, h1, h2, h3, h4, h5⟩
      · subst hc
        refine ⟨t0 :: ts, h1, h2, ?_, ?_, ?_⟩
        · rw [h3, (push_lit_fields c t0).2.2.1, List.append_assoc]
          rfl
        · rw [h4, (push_lit_fields c t0).2.2.2]
          rfl
        · intro t ht
          rcases List.mem_cons.mp ht with ht | ht
          · subst ht; exact hgen
          · exact h5 t ht

theorem generate_src_one_shape (round : mtime → mtime) (fs : FS) (t : Transform)
    (fs1 : FS) (h : generate_src_one round fs t = Except.ok fs1) :
    fs1 = updateFS fs t.generate (round t.source_time) := by
  unfold generate_src_one at h
  split at h
  · cases h
  · split at h
    · injection h with h; exact h.symm
    · cases h

theorem generate_lit_one_shape (round : mtime → mtime) (fs : FS) (t : Transform)
    (fs1 : FS) (pr : RawPath × RawPath)
    (h : generate_lit_one round fs t = Except.ok (fs1, pr)) :
    fs1 = updateFS fs t.generate (round t.source_time) ∧
    pr = (t.original, t.generate) := by
  unfold generate_lit_one at h
  split at h
  · cases h
  · split at h
    · dsimp only at h
      split at h
      · split at h
        · injection h with h
          injection h with h1 h2
          exact ⟨h1.symm, h2.symm⟩
        · cases h
      · cases h
      · cases h
    · cases h

theorem generate_srcs_preserve (round : mtime → mtime) (ts : List Transform) :
    ∀ (fs fs1 : FS), generate_srcs round fs ts = Except.ok fs1 →
    ∀ p, (∀ t ∈ ts, p ≠ t.generate) → fs1 p = fs p := by
  induction ts with
  | nil =>
    intro fs fs1 h p _
    injection h with h
    rw [← h]
  | cons t ts ih =>
    intro fs fs1 h p hp
    simp only [generate_srcs] at h
    cases hr : generate_src_one round fs t with
    | error err => rw [hr] at h; cases h
    | ok fsa =>
      rw [hr] at h
      have hfsa := generate_src_one_shape round fs t fsa hr
      have hrec := ih fsa fs1 h p (fun u hu => hp u (List.mem_cons_of_mem _ hu))
      rw [hrec, hfsa]
      unfold updateFS
      rw [if_neg (hp t (List.mem_cons_self t ts))]

theorem generate_lits_preserve (round : mtime → mtime) (ts : List Transform) :
    ∀ (fs fs1 : FS) (prs : List (RawPath × RawPath)),
    generate_lits round fs ts = Except.ok (fs1, prs) →
    ∀ p, (∀ t ∈ ts, p ≠ t.generate) → fs1 p = fs p := by
  induction ts with
  | nil =>
    intro fs fs1 prs h p _
    injection h with h
    injection h with h1 _
    rw [← h1]
  | cons t ts ih =>
    intro fs fs1 prs h p hp
    simp only [generate_lits] at h
    cases hr : generate_lit_one round fs t with
    | error err => rw [hr] at h; cases h
    | ok pr1 =>
      rw [hr] at h
      obtain ⟨fsa, pra⟩ := pr1
      dsimp only at h
      cases hrest : generate_lits round fsa ts with
      | error err => rw [hrest] at h; cases h
      | ok pr2 =>
        obtain ⟨fsb, prsb⟩ := pr2
        rw [hrest] at h
        injection h with h
        injection h with h1 _
        obtain ⟨hfsa, _⟩ := generate_lit_one_shape round fs t fsa pra hr
        have hrec := ih fsa fsb prsb hrest p (fun u hu => hp u (List.mem_cons_of_mem _ hu))
        rw [← h1, hrec, hfsa]
        unfold updateFS
        rw [if_neg (hp t (List.mem_cons_self t ts))]

theorem generate_content_preserve (round : mtime → mtime) (fs : FS)
    (srcs lits : List Transform) (fs1 : FS) (prs : List (RawPath × RawPath))
    (h : generate_content round fs srcs lits = Except.ok (fs1, prs)) (p : RawPath)
    (hs : ∀ t ∈ srcs, p ≠ t.generate) (hl : ∀ t ∈ lits, p ≠ t.generate) :
    fs1 p = fs p := by
  unfold generate_content at h
  cases hr : generate_srcs round fs srcs with
  | error err => rw [hr] at h; cases h
  | ok fsa =>
    rw [hr] at h
    rw [generate_lits_preserve round lits fsa fs1 prs h p hl]
    exact generate_srcs_preserve round srcs fs fsa hr p hs

theorem exists_ok_of_eIsOk {ε α : Type} (x : Except ε α) (h : eIsOk x = true) :
    ∃ r, x = Except.ok r := by
  cases x with
  | ok r => exact ⟨r, rfl⟩
  | error e => simp [eIsOk] at h

/-- Claim C2 (counterexample): with the stamp at 40 ms and the pair
`src/a.rs` / `src/a.md` both at 50 ms, the run succeeds (both directions
are Unneeded) yet leaves the stamp at 40 ms, while the maximum source
timestamp observed during planning over both walked trees is 50 ms. -/
theorem claim_c2_counterexample :
    (tango_run (some 40000000) 0 fsPair fsPair id [entryARs] [entryAMd]).map
      (fun r => r.1 stampPath) = Except.ok (some 40000000) ∧
    fsPair pathARs = some 50000000 ∧
    fsPair pathAMd = some 50000000 ∧
    some (40000000 : mtime) ≠ some (50000000 : mtime) :=
  ⟨by decide, rfl, rfl, by decide⟩

/-- Claim C2 (amended): after every successful run the recorded newest
time is the running maximum of the source timestamps of the *scheduled*
(needed) transforms only, and the stamp file ends at that value as stored
by the rounding set-times primitive; when nothing was scheduled the stamp
is left untouched (keeping its creation instant if it was just created).
Sources whose transforms were classified Unneeded do not participate. -/
theorem claim_c2 (stampTime : Option mtime) (now : mtime) (fsPlan fsVer : FS)
    (round : mtime → mtime) (rsE mdE : List WalkEntry) (fs' : FS) (c : Ctx)
    (h : tango_run stampTime now fsPlan fsVer round rsE mdE = Except.ok (fs', c)) :
    c.newest_stamp =
      ((c.src_inputs ++ c.lit_inputs).map Transform.source_time).foldl newestOf none ∧
    fs' stampPath =
      (match c.newest_stamp with
       | some m => some (round m)
       | none =>
         match stampTime with
         | some _ => fsPlan stampPath
         | none => some now) := by
  unfold tango_run at h
  dsimp only at h
  cases hg : gather_inputs fsPlan ⟨stampTime, [], [], none⟩ rsE mdE with
  | error err => rw [hg] at h; cases h
  | ok c2 =>
    rw [hg] at h
    dsimp only at h
    unfold gather_inputs at hg
    cases hgr : gather_rs fsPlan ⟨stampTime, [], [], none⟩ rsE with
    | error e2 => rw [hgr] at hg; cases hg
    | ok cmid =>
      rw [hgr] at hg
      dsimp only at hg
      obtain ⟨ts1, hr1, hr2, hr3, hr4, hr5⟩ := gather_rs_evolve fsPlan rsE _ cmid hgr
      obtain ⟨ts2, hm1, hm2, hm3, hm4, hm5⟩ := gather_md_evolve fsPlan mdE cmid c2 hg
      simp only at hr1 hr2 hr3 hr4
      have hsrc2 : c2.src_inputs = ts1 := by rw [hm2, hr3]; simp
      have hlit2 : c2.lit_inputs = ts2 := by rw [hm3, hr2]; simp
      have hnewest2 : c2.newest_stamp =
          ((c2.src_inputs ++ c2.lit_inputs).map Transform.source_time).foldl
            newestOf none := by
        rw [hm4, hr4, hsrc2, hlit2]
        rw [List.map_append, List.foldl_append, List.foldl_map, List.foldl_map]
      have hgenne : ∀ t, (t ∈ c2.src_inputs ∨ t ∈ c2.lit_inputs) →
          stampPath ≠ t.generate := by
        intro t ht
        rcases ht with ht | ht
        · rw [hsrc2] at ht; exact (hr5 t ht).symm
        · rw [hlit2] at ht; exact (hm5 t ht).symm
      cases hgen : generate_content round fsPlan c2.src_inputs c2.lit_inputs with
      | error err => rw [hgen] at h; cases h
      | ok pr =>
        obtain ⟨fs1, prs⟩ := pr
        rw [hgen] at h
        dsimp only at h
        cases hchk : check_input_timestamps fsVer c2.src_inputs c2.lit_inputs with
        | error err => rw [hchk] at h; cases h
        | ok u =>
          cases u
          rw [hchk] at h
          dsimp only at h
          have hfs1 : fs1 stampPath = fsPlan stampPath :=
            generate_content_preserve round fsPlan c2.src_inputs c2.lit_inputs
              fs1 prs hgen stampPath
              (fun t ht => hgenne t (Or.inl ht)) (fun t ht => hgenne t (Or.inr ht))
          cases hne : c2.newest_stamp with
          | some m =>
            rw [hne] at h
            unfold adjust_stamp_timestamp at h
            dsimp only at h
            by_cases hm0 : m > 0
            · rw [if_pos hm0] at h
              injection h with h
              injection h with hfs hc
              subst hc
              refine ⟨hnewest2, ?_⟩
              simp only [hne]
              rw [← hfs]
              unfold updateFS
              rw [if_pos rfl]
            · rw [if_neg hm0] at h; cases h
          | none =>
            rw [hne] at h
            unfold adjust_stamp_timestamp at h
            dsimp only at h
            injection h with h
            injection h with hfs hc
            subst hc
            refine ⟨hnewest2, ?_⟩
            simp only [hne]
            cases stampTime with
            | some st =>
              dsimp only at hfs
              subst hfs
              dsimp only
              exact hfs1
            | none =>
              dsimp only at hfs
              subst hfs
              dsimp only
              unfold create_stamp updateFS
              rw [if_pos rfl]

/-- Claim C2 (witness): in the counterexample run nothing is scheduled, so
the amended claim predicts (and the run produces) an untouched stamp. -/
theorem claim_c2_witness :
    ∃ r : FS × Ctx,
      tango_run (some 40000000) 0 fsPair fsPair id [entryARs] [entryAMd] =
        Except.ok r ∧
      r.1 stampPath = some 40000000 := by
  obtain ⟨⟨fsW, cW⟩, hr⟩ := exists_ok_of_eIsOk
    (tango_run (some 40000000) 0 fsPair fsPair id [entryARs] [entryAMd]) (by decide)
  have h2 := claim_c2 (some 40000000) 0 fsPair fsPair id [entryARs] [entryAMd]
    fsW cW hr
  have hnone : cW.newest_stamp = none := by
    have h3 : (tango_run (some 40000000) 0 fsPair fsPair id [entryARs]
        [entryAMd]).map (fun x => x.2.newest_stamp) = Except.ok none := by decide
    rw [hr] at h3
    simpa [Except.map] using h3
  refine ⟨(fsW, cW), hr, ?_⟩
  have hcon := h2.2
  rw [hnone] at hcon
  exact hcon

/-! ## The post-generation defensive check: claim C5 -/

theorem generate_lits_pairs (round : mtime → mtime) (ts : List Transform) :
    ∀ (fs fs1 : FS) (prs : List (RawPath × RawPath)),
    generate_lits round fs ts = Except.ok (fs1, prs) →
    prs = ts.map (fun t => (t.original, t.generate)) := by
  induction ts with
  | nil =>
    intro fs fs1 prs h
    injection h with h
    injection h with _ h2
    rw [← h2]
    rfl
  | cons t ts ih =>
    intro fs fs1 prs h
    simp only [generate_lits] at h
    cases hr : generate_lit_one round fs t with
    | error err => rw [hr] at h; cases h
    | ok pr1 =>
      rw [hr] at h
      obtain ⟨fsa, pra⟩ := pr1
      dsimp only at h
      cases hrest : generate_lits round fsa ts with
      | error err => rw [hrest] at h; cases h
      | ok pr2 =>
        obtain ⟨fsb, prsb⟩ := pr2
        rw [hrest] at h
        injection h with h
        injection h with _ h2
        obtain ⟨_, hpra⟩ := generate_lit_one_shape round fs t fsa pra hr
        rw [← h2, hpra, ih fsa fsb prsb hrest]
        rfl

theorem generate_srcs_total (round : mtime → mtime) (ts : List Transform) :
    ∀ fs : FS, (∀ t ∈ ts, 0 < t.source_time ∧ ∃ m, fs t.original = some m) →
    ∃ fs1, generate_srcs round fs ts = Except.ok fs1 := by
  induction ts with
  | nil => intro fs _; exact ⟨fs, rfl⟩
  | cons t ts ih =>
    intro fs hp
    obtain ⟨hpos, m, hm⟩ := hp t (List.mem_cons_self t ts)
    have hone : generate_src_one round fs t =
        Except.ok (updateFS fs t.generate (round t.source_time)) := by
      unfold generate_src_one
      rw [hm]
      rw [if_pos hpos]
    obtain ⟨fs1, hrest⟩ := ih (updateFS fs t.generate (round t.source_time)) (by
      intro u hu
      obtain ⟨hupos, mu, hmu⟩ := hp u (List.mem_cons_of_mem _ hu)
      refine ⟨hupos, ?_⟩
      unfold updateFS
      by_cases he : u.original = t.generate
      · exact ⟨round t.source_time, by rw [if_pos he]⟩
      · exact ⟨mu, by rw [if_neg he]; exact hmu⟩)
    refine ⟨fs1, ?_⟩
    simp only [generate_srcs, hone]
    exact hrest

theorem generate_lits_total (round : mtime → mtime)
    (hR : ∀ n, to_ms (round n) = to_ms n) (ts : List Transform) :
    ∀ fs : FS,
    (∀ t ∈ ts, 0 < t.source_time ∧ fs t.original = some t.source_time) →
    (∀ t ∈ ts, ∀ u ∈ ts, t.original ≠ u.generate) →
    ∃ fs1 prs, generate_lits round fs ts = Except.ok (fs1, prs) := by
  induction ts with
  | nil => intro fs _ _; exact ⟨fs, [], rfl⟩
  | cons t ts ih =>
    intro fs hp hd
    obtain ⟨hpos, hm⟩ := hp t (List.mem_cons_self t ts)
    have hself : t.original ≠ t.generate :=
      hd t (List.mem_cons_self t ts) t (List.mem_cons_self t ts)
    have horig : updateFS fs t.generate (round t.source_time) t.original =
        some t.source_time := by
      unfold updateFS
      rw [if_neg hself]
      exact hm
    have hgen : updateFS fs t.generate (round t.source_time) t.generate =
        some (round t.source_time) := by
      unfold updateFS
      rw [if_pos rfl]
    have hone : generate_lit_one round fs t =
        Except.ok (updateFS fs t.generate (round t.source_time),
          (t.original, t.generate)) := by
      unfold generate_lit_one
      rw [hm]
      rw [if_pos hpos]
      dsimp only
      rw [horig, hgen]
      dsimp only
      rw [if_pos (hR t.source_time).symm]
    obtain ⟨fs1, prs, hrest⟩ := ih (updateFS fs t.generate (round t.source_time)) (by
      intro u hu
      obtain ⟨hupos, hmu⟩ := hp u (List.mem_cons_of_mem _ hu)
      refine ⟨hupos, ?_⟩
      unfold updateFS
      rw [if_neg (hd u (List.mem_cons_of_mem _ hu) t (List.mem_cons_self t ts))]
      exact hmu)
      (fun u hu v hv =>
        hd u (List.mem_cons_of_mem _ hu) v (List.mem_cons_of_mem _ hv))
    refine ⟨fs1, (t.original, t.generate) :: prs, ?_⟩
    simp only [generate_lits, hone]
    rw [hrest]

/-- Claim C5 (counterexample): a source-to-literate transform generates its
target (backdated to the source time) but the engine performs no re-read
assertion on it: the checked-pair list of the run is empty while a pair was
generated — so the defensive check is not performed in both directions. -/
theorem claim_c5_counterexample :
    (generate_content id fsSolo [transformSrcA] []).map (fun r => r.2) =
      Except.ok [] ∧
    (generate_content id fsSolo [transformSrcA] []).map
      (fun r => r.1 transformSrcA.generate) = Except.ok (some 2000000) := by
  exact ⟨by decide, by decide⟩

/-- Claim C5 (amended): the post-generation re-read-and-assert is performed
exactly once per literate-to-source pair and never in the source-to-literate
direction; and whenever the set-times primitive preserves millisecond
precision, every source exists, every planned time is positive, and no
literate source collides with a generated target, all the performed
assertions hold (generation succeeds without a panic). -/
theorem claim_c5 :
    (∀ (round : mtime → mtime) (fs : FS) (srcs lits : List Transform)
        (fs1 : FS) (prs : List (RawPath × RawPath)),
      generate_content round fs srcs lits = Except.ok (fs1, prs) →
      prs = lits.map (fun t => (t.original, t.generate))) ∧
    (∀ (round : mtime → mtime) (fs : FS) (srcs lits : List Transform),
      (∀ n, to_ms (round n) = to_ms n) →
      (∀ t ∈ srcs, 0 < t.source_time ∧ ∃ m, fs t.original = some m) →
      (∀ t ∈ lits, 0 < t.source_time ∧ fs t.original = some t.source_time) →
      (∀ t ∈ lits, ∀ u ∈ srcs, t.original ≠ u.generate) →
      (∀ t ∈ lits, ∀ u ∈ lits, t.original ≠ u.generate) →
      ∃ fs1 prs, generate_content round fs srcs lits = Except.ok (fs1, prs)) := by
  constructor
  · intro round fs srcs lits fs1 prs h
    unfold generate_content at h
    cases hr : generate_srcs round fs srcs with
    | error err => rw [hr] at h; cases h
    | ok fsa =>
      rw [hr] at h
      exact generate_lits_pairs round lits fsa fs1 prs h
  · intro round fs srcs lits hR hs hl hd1 hd2
    obtain ⟨fsa, hra⟩ := generate_srcs_total round srcs fs hs
    have hlitsa : ∀ t ∈ lits, 0 < t.source_time ∧ fsa t.original = some t.source_time := by
      intro t ht
      obtain ⟨hpos, hm⟩ := hl t ht
      refine ⟨hpos, ?_⟩
      rw [generate_srcs_preserve round srcs fs fsa hra t.original
        (fun u hu => hd1 t ht u hu)]
      exact hm
    obtain ⟨fs1, prs, hrb⟩ := generate_lits_total round hR lits fsa hlitsa hd2
    refine ⟨fs1, prs, ?_⟩
    unfold generate_content
    rw [hra]
    exact hrb

/-- Claim C5 (witness): a concrete literate-to-source run in which the
single performed check is on the planned pair and succeeds. -/
theorem claim_c5_witness :
    ∃ (fs1 : FS) (prs : List (RawPath × RawPath)),
      generate_content id fsLitA [] [transformLitA] = Except.ok (fs1, prs) ∧
      prs = [(pathAMd, pathARs)] := by
  obtain ⟨fs1, prs, h⟩ := claim_c5.2 id fsLitA [] [transformLitA]
    (fun _ => rfl)
    (by intro t ht; cases ht)
    (by
      intro t ht
      simp only [List.mem_singleton] at ht
      subst ht
      exact ⟨by decide, rfl⟩)
    (by intro t _ u hu; cases hu)
    (by
      intro t ht u hu
      simp only [List.mem_singleton] at ht hu
      subst ht; subst hu
      decide)
  refine ⟨fs1, prs, h, ?_⟩
  have := claim_c5.1 id fsLitA [] [transformLitA] fs1 prs h
  rw [this]
  rfl

/-! ## The literate round trip: claim C3 -/

theorem leadsWith_append (p t : Line) : leadsWith p (p ++ t) = true := by
  induction p with
  | nil => rfl
  | cons a as ih => simp [leadsWith, ih]

theorem leadsWith_decomp (p : Line) :
    ∀ l, leadsWith p l = true → l = p ++ l.drop p.length := by
  induction p with
  | nil => intro l _; rfl
  | cons a as ih =>
    intro l h
    cases l with
    | nil => cases h
    | cons b bs =>
      simp only [leadsWith, Bool.and_eq_true, decide_eq_true_eq] at h
      obtain ⟨hab, hrec⟩ := h
      subst hab
      have hb := ih bs hrec
      simp only [List.cons_append, List.length_cons, List.drop_succ_cons]
      rw [← hb]

theorem prose_cases (l : Line) (hp : isProseLine l = true) :
    l = proseMark ∨ l = proseMarkSp ++ proseText l := by
  unfold isProseLine at hp
  rw [Bool.or_eq_true] at hp
  rcases hp with h | h
  · exact Or.inl (of_decide_eq_true h)
  · right
    have hd := leadsWith_decomp proseMarkSp l h
    have hne : l ≠ proseMark := by
      intro he
      rw [he] at h
      cases h
    unfold proseText
    rw [if_neg hne]
    exact hd

theorem isProse_nil : isProseLine [] = false := rfl

/-! Step-value lemmas for the two machines. -/

theorem rs2md_go_cons (st : RsState) (l : Line) (M : List Line) :
    rs2md_go st (l :: M) = (rs2md_step st l).2 ++ rs2md_go (rs2md_step st l).1 M :=
  rfl

theorem md2rs_go_cons (st : MdState) (l : Line) (M : List Line) :
    md2rs_go st (l :: M) = (md2rs_step st l).2 ++ md2rs_go (md2rs_step st l).1 M :=
  rfl

theorem rs2md_step_prose_inprose (l : Line) (hp : isProseLine l = true) :
    rs2md_step RsState.InProse l = (RsState.InProse, [proseText l]) := by
  unfold rs2md_step
  dsimp only
  rw [if_pos hp]

theorem rs2md_step_prose_incode (blk : List Line) (l : Line)
    (hp : isProseLine l = true) :
    rs2md_step (RsState.InCode blk) l =
      (RsState.InProse, [fenceClose, urlLine blk, proseText l]) := by
  unfold rs2md_step
  dsimp only
  rw [if_pos hp]

theorem rs2md_step_blank_inprose :
    rs2md_step RsState.InProse [] = (RsState.InProse, [[]]) := by
  unfold rs2md_step
  dsimp only
  rw [if_neg (by rw [isProse_nil]; exact Bool.false_ne_true), if_pos rfl]

theorem rs2md_step_blank_incode (blk : List Line) :
    rs2md_step (RsState.InCode blk) [] =
      (RsState.InCode (blk ++ [[]]), [[]]) := by
  unfold rs2md_step
  dsimp only
  rw [if_neg (by rw [isProse_nil]; exact Bool.false_ne_true), if_pos rfl]

theorem rs2md_step_code_inprose (l : Line) (hp : isProseLine l = false)
    (hb : l ≠ []) :
    rs2md_step RsState.InProse l = (RsState.InCode [l], [fenceOpen, l]) := by
  unfold rs2md_step
  dsimp only
  rw [if_neg (by rw [hp]; exact Bool.false_ne_true), if_neg hb]

theorem rs2md_step_code_incode (blk : List Line) (l : Line)
    (hp : isProseLine l = false) (hb : l ≠ []) :
    rs2md_step (RsState.InCode blk) l = (RsState.InCode (blk ++ [l]), [l]) := by
  unfold rs2md_step
  dsimp only
  rw [if_neg (by rw [hp]; exact Bool.false_ne_true), if_neg hb]

theorem urlLine_decomp (b : List Line) :
    urlLine b = urlHead ++
      ((trimText (blockText b)).flatMap percentEncodeChar ++ urlTail) := by
  have hA : ("[playground](".toList ++
      "https://play.rust-lang.org/?code=".toList : Line) =
      "[playground](https://play.rust-lang.org/?code=".toList := by decide
  have hB : ("&version=nightly".toList ++ [')'] : Line) =
      "&version=nightly)".toList := by decide
  have h1 : urlLine b = ("[playground](".toList ++
        "https://play.rust-lang.org/?code=".toList) ++
      ((trimText (blockText b)).flatMap percentEncodeChar ++
        ("&version=nightly".toList ++ [')'])) := by
    unfold urlLine encode_to_url
    simp [List.append_assoc]
  rw [h1, hA, hB]
  rfl

theorem urlLine_ne_nil (b : List Line) : urlLine b ≠ [] := by
  rw [urlLine_decomp]
  intro h
  have hh := List.append_eq_nil.mp h
  exact absurd hh.1 (by decide)

theorem isUrl_url (b : List Line) : isUrlLine (urlLine b) = true := by
  unfold isUrlLine
  rw [urlLine_decomp]
  rw [Bool.and_eq_true]
  constructor
  · exact leadsWith_append _ _
  · rw [List.reverse_append, List.reverse_append]
    rw [List.append_assoc]
    exact leadsWith_append _ _

theorem md2rs_step_close (blkM : List Line) :
    md2rs_step (MdState.InCode blkM) fenceClose = (MdState.AwaitUrl blkM, []) := by
  unfold md2rs_step
  dsimp only
  rw [if_pos rfl]

theorem md2rs_step_url (blkM blk : List Line) :
    md2rs_step (MdState.AwaitUrl blkM) (urlLine blk) = (MdState.InProse, []) := by
  unfold md2rs_step
  dsimp only
  rw [if_neg (urlLine_ne_nil blk), if_pos (isUrl_url blk)]

theorem md2rs_step_blank_prose :
    md2rs_step MdState.InProse [] = (MdState.InProse, [proseMark]) := by
  unfold md2rs_step
  dsimp only
  rw [if_neg (by decide), if_pos rfl]

theorem md2rs_step_open :
    md2rs_step MdState.InProse fenceOpen = (MdState.InCode [], []) := by
  unfold md2rs_step
  dsimp only
  rw [if_pos rfl]

theorem md2rs_step_code (blkM : List Line) (l : Line) (hne : l ≠ fenceClose) :
    md2rs_step (MdState.InCode blkM) l = (MdState.InCode (blkM ++ [l]), [l]) := by
  unfold md2rs_step
  dsimp only
  rw [if_neg hne]

theorem prose_step (l : Line) (hp : isProseLine l = true)
    (hsl : l ≠ proseMarkSp ++ fenceOpen) :
    md2rs_step MdState.InProse (proseText l) =
      (MdState.InProse, [normalizeBlankProse l]) := by
  rcases prose_cases l hp with hm | hd
  · subst hm
    decide
  · by_cases ht0 : proseText l = []
    · rw [ht0, List.append_nil] at hd
      rw [ht0]
      subst hd
      decide
    · have htf : proseText l ≠ fenceOpen := fun he => hsl (he ▸ hd)
      unfold md2rs_step
      dsimp only
      rw [if_neg htf, if_neg ht0]
      have hnorm : normalizeBlankProse l = l := by
        unfold normalizeBlankProse
        rw [if_neg]
        simp only [Bool.or_eq_true, decide_eq_true_eq, not_or]
        constructor
        · intro he
          rw [he] at hd
          have hh := List.append_eq_nil.mp hd.symm
          exact absurd hh.1 (by decide)
        · intro he
          apply ht0
          have hh : proseMarkSp ++ proseText l = proseMarkSp ++ ([] : Line) := by
            rw [List.append_nil]
            exact hd.symm.trans he
          exact List.append_cancel_left hh
      rw [hnorm]
      rw [← hd]

theorem rt_main (ls : List Line) (hsafe : roundTripSafe ls) :
    (md2rs_go MdState.InProse (rs2md_go RsState.InProse ls) = proseNorm false ls) ∧
    (∀ blk blkM,
      md2rs_go (MdState.InCode blkM) (rs2md_go (RsState.InCode blk) ls) =
        proseNorm true ls) := by
  induction ls with
  | nil =>
    constructor
    · rfl
    · intro blk blkM
      show md2rs_go (MdState.InCode blkM) (fenceClose :: [urlLine blk]) = []
      rw [md2rs_go_cons, md2rs_step_close]
      rw [md2rs_go_cons, md2rs_step_url]
      rfl
  | cons l rest ih =>
    have hs1 := hsafe l (List.mem_cons_self l rest)
    have hsrest : roundTripSafe rest := fun x hx => hsafe x (List.mem_cons_of_mem _ hx)
    obtain ⟨ihp, ihc⟩ := ih hsrest
    by_cases hp : isProseLine l = true
    · constructor
      · rw [rs2md_go_cons, rs2md_step_prose_inprose l hp]
        dsimp only
        rw [List.singleton_append]
        rw [md2rs_go_cons, prose_step l hp hs1.2]
        dsimp only
        rw [List.singleton_append, ihp]
        simp [proseNorm, hp]
      · intro blk blkM
        rw [rs2md_go_cons, rs2md_step_prose_incode blk l hp]
        dsimp only
        simp only [List.cons_append, List.nil_append]
        rw [md2rs_go_cons, md2rs_step_close]
        dsimp only
        simp only [List.nil_append]
        rw [md2rs_go_cons, md2rs_step_url]
        dsimp only
        simp only [List.nil_append]
        rw [md2rs_go_cons, prose_step l hp hs1.2]
        dsimp only
        rw [List.singleton_append, ihp]
        simp [proseNorm, hp]
    · have hp' : isProseLine l = false := by simpa using hp
      by_cases hb : l = []
      · subst hb
        constructor
        · rw [rs2md_go_cons, rs2md_step_blank_inprose]
          dsimp only
          rw [List.singleton_append]
          rw [md2rs_go_cons, md2rs_step_blank_prose]
          dsimp only
          rw [List.singleton_append, ihp]
          simp [proseNorm, isProse_nil]
        · intro blk blkM
          rw [rs2md_go_cons, rs2md_step_blank_incode blk]
          dsimp only
          rw [List.singleton_append]
          rw [md2rs_go_cons, md2rs_step_code blkM [] (by decide)]
          dsimp only
          rw [List.singleton_append, ihc (blk ++ [[]]) (blkM ++ [[]])]
          simp [proseNorm, isProse_nil]
      · constructor
        · rw [rs2md_go_cons, rs2md_step_code_inprose l hp' hb]
          dsimp only
          simp only [List.cons_append, List.nil_append]
          rw [md2rs_go_cons, md2rs_step_open]
          dsimp only
          simp only [List.nil_append]
          rw [md2rs_go_cons, md2rs_step_code [] l hs1.1]
          dsimp only
          rw [List.singleton_append, ihc [l] ([] ++ [l])]
          simp [proseNorm, hp', hb]
        · intro blk blkM
          rw [rs2md_go_cons, rs2md_step_code_incode blk l hp' hb]
          dsimp only
          rw [List.singleton_append]
          rw [md2rs_go_cons, md2rs_step_code blkM l hs1.1]
          dsimp only
          rw [List.singleton_append, ihc (blk ++ [l]) (blkM ++ [l])]
          simp [proseNorm, hp', hb]

/-- Claim C3 (counterexample): a program whose single prose line encodes a
fence-opening line is not recovered by the round trip — the literate form
opens a fence and the program text vanishes entirely, which no amount of
blank-prose whitespace tolerance recovers. -/
theorem claim_c3_counterexample :
    eqUpToBlankProse (md2rs (rs2md [proseMarkSp ++ fenceOpen]))
      [proseMarkSp ++ fenceOpen] = false ∧
    md2rs (rs2md [proseMarkSp ++ fenceOpen]) = [] := by
  exact ⟨by decide, by decide⟩

/-- Claim C3 (amended): for any program text none of whose lines is a bare
fence close and none of whose prose lines encodes a fence-opening line, the
round trip returns the text exactly up to blank-prose normalization: a
blank line in a prose region and a marker-plus-space line both come back as
the bare comment marker, and every other line is reproduced verbatim. -/
theorem claim_c3 (P : List Line) (hsafe : roundTripSafe P) :
    md2rs (rs2md P) = proseNorm false P :=
  (rt_main P hsafe).1

/-- Claim C3 (witness): a concrete program round-trips to its blank-prose
normalization. -/
theorem claim_c3_witness :
    roundTripSafe demoProgram ∧
    md2rs (rs2md demoProgram) = proseNorm false demoProgram :=
  ⟨by decide, claim_c3 demoProgram (by decide)⟩

end Tango
